import Mathlib

/-!
Shallow embedding of the django-changerequest core.

The embedding covers the JSON snapshot values stored in `data_revert` /
`data_changed`, the diff helpers of `changerequest/utils.py`
(`changed_keys`, `filter_data`, `parse_http_list`, `get_ip_from_request`),
and the `ChangeRequest` / `HistoryModel` operations of
`changerequest/models.py` (`create`, `set_object`, `set_request_type`,
`save`, `delete`, `diff_related`).  Database side effects are made explicit
by threading a `SysState` value; exceptions raised by the Python code are
modelled with `Except`.
-/

namespace DCR

/-- JSON-style field values as they appear in `data_revert` / `data_changed`
snapshots (`model_to_dict` produces ints, strings, booleans, `None` and
lists of referenced primary keys for many-to-many fields). -/
inductive Val where
  | null
  | int (n : Int)
  | str (s : String)
  | bool (b : Bool)
  | list (l : List Int)
deriving DecidableEq, Repr

/-- Python truthiness of a snapshot value, used by guards such as
`if item[pk]` in `ChangeRequest.diff_related`. -/
def Val.truthy : Val → Bool
  | .null => false
  | .int n => n != 0
  | .str s => s != ""
  | .bool b => b
  | .list l => !l.isEmpty

/-- A Python dict mapping field names to values, kept as an association list
in insertion order (Python dicts preserve insertion order; every dict the
source builds has unique keys). -/
abbrev Dict := List (String × Val)

/-- Dictionary lookup `d[k]` / `d.get(k)`: value of the first entry whose key
is `k`, if any. -/
def dget (d : Dict) (k : String) : Option Val :=
  (d.find? (fun p => p.1 == k)).map (fun p => p.2)

/-- Python membership test `k in d`. -/
def hasKey (d : Dict) (k : String) : Bool := (dget d k).isSome

/-- Python `d.keys()` as a list. -/
def dkeys (d : Dict) : List String := d.map (fun p => p.1)

/-- Source `utils.changed_keys`: compares two dictionaries and returns the
keys, present in both, whose values differ.  Python iterates over the key-set
intersection `a.keys() & b.keys()`; the embedding iterates over the keys of
`a` restricted to keys of `b`, which has the same members. -/
def changed_keys (a b : Dict) : List String :=
  (dkeys a).filter (fun k => hasKey b k && decide (dget a k ≠ dget b k))

/-- Source `utils.filter_data`: `{k: data[k] for k in keys if k in data}`. -/
def filter_data (data : Dict) (keys : List String) : Dict :=
  keys.filterMap (fun k => (dget data k).map (fun v => (k, v)))

theorem hasKey_iff (d : Dict) (k : String) : hasKey d k = true ↔ k ∈ dkeys d := by
  induction d with
  | nil => simp [hasKey, dget, dkeys]
  | cons p rest ih =>
    by_cases h : p.1 = k
    · simp [hasKey, dget, dkeys, List.find?_cons, h]
    · have h' : (p.1 == k) = false := by
        simpa using h
      have ih' : (Option.map (fun p => p.2) (List.find? (fun q => q.1 == k) rest)).isSome = true
          ↔ k ∈ List.map (fun q => q.1) rest := by
        simp only [hasKey, dget, dkeys] at ih
        exact ih
      simp only [hasKey, dget, dkeys, List.find?_cons, h', List.map_cons, List.mem_cons,
        if_neg (by simp [h'] : ¬((p.1 == k) = true))]
      constructor
      · intro hx
        exact Or.inr (ih'.mp hx)
      · intro hx
        rcases hx with hx | hx
        · exact absurd hx.symm h
        · exact ih'.mpr hx

theorem mem_changed_keys (a b : Dict) (k : String) :
    k ∈ changed_keys a b ↔ (k ∈ dkeys a ∧ k ∈ dkeys b ∧ dget a k ≠ dget b k) := by
  simp only [changed_keys, List.mem_filter, Bool.and_eq_true, decide_eq_true_eq, hasKey_iff,
    and_assoc]

/-- Claim C8: `changed_keys` is symmetric as a set of keys (a key is reported
for `(a, b)` iff it is reported for `(b, a)`), and two dictionaries with no
key in common have an empty changed-key set. -/
theorem changed_keys_symm_disjoint :
    (∀ (a b : Dict) (k : String), k ∈ changed_keys a b ↔ k ∈ changed_keys b a) ∧
    (∀ (a b : Dict), (∀ k, ¬(k ∈ dkeys a ∧ k ∈ dkeys b)) → changed_keys a b = []) := by
  constructor
  · intro a b k
    rw [mem_changed_keys, mem_changed_keys]
    constructor
    · rintro ⟨h1, h2, h3⟩
      exact ⟨h2, h1, fun h => h3 h.symm⟩
    · rintro ⟨h1, h2, h3⟩
      exact ⟨h2, h1, fun h => h3 h.symm⟩
  · intro a b h
    rw [List.eq_nil_iff_forall_not_mem]
    intro k hk
    rw [mem_changed_keys] at hk
    exact h k ⟨hk.1, hk.2.1⟩

/-- Witness for C8: concrete instantiation of the disjoint-keys part at
dictionaries with keys `x` and `y`, and of the symmetry part at key `x`. -/
theorem changed_keys_symm_disjoint_witness :
    changed_keys [("x", Val.int 1)] [("y", Val.int 2)] = []
    ∧ ("x" ∈ changed_keys [("x", Val.int 1)] [("x", Val.int 2)]
        ↔ "x" ∈ changed_keys [("x", Val.int 2)] [("x", Val.int 1)]) := by
  refine ⟨changed_keys_symm_disjoint.2 _ _ ?_, changed_keys_symm_disjoint.1 _ _ _⟩
  intro k hk
  rcases hk with ⟨h1, h2⟩
  simp [dkeys] at h1 h2
  rw [h1] at h2
  exact absurd h2 (by decide)

/-- Python whitespace characters stripped by `str.strip()` with no argument. -/
def isPySpace (c : Char) : Bool :=
  c == ' ' || c == '\t' || c == '\n' || c == '\r' || c == '\x0b' || c == '\x0c'

/-- Python `str.strip()` on a character list: drop leading and trailing
whitespace. -/
def pyStripChars (l : List Char) : List Char :=
  ((l.dropWhile isPySpace).reverse.dropWhile isPySpace).reverse

/-- Python `s.strip('"')`: drop leading and trailing double-quote characters. -/
def stripQuotes (s : String) : String :=
  ⟨((s.toList.dropWhile (· == '"')).reverse.dropWhile (· == '"')).reverse⟩

/-- Loop state of `urllib.request.parse_http_list`: the collected parts, the
current part, and the escape / inside-quotes flags. -/
structure PhlState where
  res : List (List Char)
  part : List Char
  esc : Bool
  quoted : Bool
deriving DecidableEq, Repr

/-- One character step of the `urllib.request.parse_http_list` loop. -/
def phlStep (st : PhlState) (cur : Char) : PhlState :=
  if st.esc then
    { st with part := st.part ++ [cur], esc := false }
  else if st.quoted then
    if cur == '\\' then { st with esc := true }
    else if cur == '"' then { st with part := st.part ++ [cur], quoted := false }
    else { st with part := st.part ++ [cur] }
  else if cur == ',' then
    { st with res := st.res ++ [st.part], part := [] }
  else if cur == '"' then
    { st with part := st.part ++ [cur], quoted := true }
  else
    { st with part := st.part ++ [cur] }

/-- Source behaviour of `urllib.request.parse_http_list` (imported by
`changerequest/utils.py`): split a comma-separated list whose elements may
contain quoted strings, then strip whitespace from each part. -/
def parse_http_list (s : String) : List String :=
  let st := s.toList.foldl phlStep ⟨[], [], false, false⟩
  let res := if st.part.isEmpty then st.res else st.res ++ [st.part]
  res.map (fun part => ⟨pyStripChars part⟩)

/-- The request context the core reads: the two relevant `request.META`
entries and the authenticated user's id (`request.user`). -/
structure HttpRequest where
  http_x_forwarded_for : Option String
  remote_addr : String
  userId : Nat
deriving DecidableEq, Repr

/-- Source `utils.get_ip_from_request`: prefer the first entry of the
`HTTP_X_FORWARDED_FOR` header (stripped of surrounding `"` characters) when
the header is present and parses to a non-empty list, else fall back to
`REMOTE_ADDR`. -/
def get_ip_from_request (request : HttpRequest) : String :=
  match request.http_x_forwarded_for with
  | some header =>
    match parse_http_list header with
    | a :: _ => stripQuotes a
    | [] => request.remote_addr
  | none => request.remote_addr

/-- Claim C9: `get_ip_from_request` returns the first parsed forwarded-for
entry stripped of surrounding double quotes whenever the header is present
and parses to a non-empty list, and the direct connection address otherwise;
concretely, the header value `192.168.1.2, "192.168.255.255, "` resolves to
`192.168.1.2`. -/
theorem get_ip_from_request_spec :
    (∀ (r : HttpRequest) (h : String) (a : String) (rest : List String),
        r.http_x_forwarded_for = some h → parse_http_list h = a :: rest →
        get_ip_from_request r = stripQuotes a) ∧
    (∀ (r : HttpRequest) (h : String),
        r.http_x_forwarded_for = some h → parse_http_list h = [] →
        get_ip_from_request r = r.remote_addr) ∧
    (∀ (r : HttpRequest), r.http_x_forwarded_for = none →
        get_ip_from_request r = r.remote_addr) ∧
    get_ip_from_request ⟨some "192.168.1.2, \"192.168.255.255, \"", "127.0.0.1", 1⟩
      = "192.168.1.2" := by
  refine ⟨?_, ?_, ?_, by decide⟩
  · intro r h a rest hh hp
    simp [get_ip_from_request, hh, hp]
  · intro r h hh hp
    simp [get_ip_from_request, hh, hp]
  · intro r hh
    simp [get_ip_from_request, hh]

/-- Witness for C9: the forwarded-for header `10.0.0.1, 10.0.0.2` is present
and parses to a non-empty list, and the resolved origin is its first entry. -/
theorem get_ip_from_request_spec_witness :
    get_ip_from_request ⟨some "10.0.0.1, 10.0.0.2", "127.0.0.1", 1⟩ = "10.0.0.1" := by
  have h := get_ip_from_request_spec.1 ⟨some "10.0.0.1, 10.0.0.2", "127.0.0.1", 1⟩
    "10.0.0.1, 10.0.0.2" "10.0.0.1" ["10.0.0.2"] rfl (by decide)
  simpa using h

/-- `ChangeRequest.Type` constants from `models.py`. -/
inductive RequestType where
  | ADD
  | MODIFY
  | DELETE
  | RELATED
deriving DecidableEq, Repr

/-- `ChangeRequest.Status` constants from `models.py`. -/
inductive Status where
  | PENDING
  | APPROVED
  | DENIED
  | WITHDRAWN
  | REVERTED
deriving DecidableEq, Repr

/-- Snapshot payload of `data_revert` / `data_changed`: a single field dict
for ADD/MODIFY/DELETE records, or a list of row dicts for RELATED records. -/
inductive JVal where
  | dict (d : Dict)
  | rows (l : List Dict)
deriving DecidableEq, Repr

/-- Python truthiness of `obj.pk` (`if obj.pk:`): the primary key is set and
non-zero. -/
def pkSet (pk : Option Nat) : Bool :=
  match pk with
  | some p => p != 0
  | none => false

/-- A tracked-entity instance (`HistoryModel` subclass object): its primary
key (if assigned), the `model_to_dict` image of its current in-memory field
values, its string representation, and the ephemeral `comment` attribute. -/
structure HistoryModel where
  pk : Option Nat
  fields : Dict
  label : String
  comment : String
deriving DecidableEq, Repr

/-- The in-memory state of one `ChangeRequest` model instance.  `object_id`
and `object_str` are set by `set_object`; `object is not None` is tracked by
`object_id.isSome` (in the only flow that reads it, `create`, `set_object`
has just assigned `self.object` exactly when the entity's pk is set). -/
structure ChangeRequest where
  pk : Option Nat
  object_id : Option Nat
  object_str : String
  related_type : Option Nat
  request_type : RequestType
  status : Status
  data_revert : Option JVal
  data_changed : Option JVal
  comment : String
  user : Nat
  user_ip : String
deriving DecidableEq, Repr

/-- A fresh, unsaved `ChangeRequest()` instance (model field defaults). -/
def ChangeRequest.blank : ChangeRequest :=
  { pk := none, object_id := none, object_str := "", related_type := none,
    request_type := RequestType.ADD, status := Status.PENDING,
    data_revert := none, data_changed := none, comment := "", user := 0, user_ip := "" }

/-- Observable persistence side effects, in the order they are issued. -/
inductive Event where
  | crPersist (p : Nat)
  | rowWrite (p : Nat)
  | rowDelete (p : Nat)
  | formsetSave
deriving DecidableEq, Repr

/-- The persistent store: the tracked-entity table (pk to non-pk field dict),
the `ChangeRequest` table, the auto-increment counters, and the trace of
persistence side effects. -/
structure SysState where
  rows : List (Nat × Dict)
  crs : List (Nat × ChangeRequest)
  nextRowPk : Nat
  nextCrPk : Nat
  events : List Event
deriving DecidableEq, Repr

/-- First-match association-list lookup (SELECT by primary key). -/
def assocLookup {α : Type} (l : List (Nat × α)) (p : Nat) : Option α :=
  match l with
  | [] => none
  | (q, v) :: rest => if q = p then some v else assocLookup rest p

/-- UPDATE by primary key, falling back to INSERT when no row matched (the
behaviour of Django `Model.save` with a preset primary key). -/
def assocUpdate {α : Type} (l : List (Nat × α)) (p : Nat) (v : α) : List (Nat × α) :=
  if l.any (fun q => q.1 == p) then
    l.map (fun q => if q.1 == p then (p, v) else q)
  else l ++ [(p, v)]

/-- DELETE by primary key. -/
def assocRemove {α : Type} (l : List (Nat × α)) (p : Nat) : List (Nat × α) :=
  l.filter (fun q => q.1 != p)

/-- Source `HistoryModel.data_revert`: re-read the entity's persisted state
from the database; `None` when the entity has no (truthy) pk; Django raises
`DoesNotExist` when the pk is set but the row is absent. -/
def HistoryModel.dataRevert (s : SysState) (obj : HistoryModel) : Except String (Option Dict) :=
  if pkSet obj.pk then
    match obj.pk with
    | some p =>
      match assocLookup s.rows p with
      | some d => Except.ok (some d)
      | none => Except.error "DoesNotExist"
    | none => Except.ok none
  else Except.ok none

/-- Source `ChangeRequest.set_object`: keep the object reference (hence its
id) for an existing object, or record only the type (id `None`) for a new
object; always snapshot `str(obj)` into `object_str`. -/
def ChangeRequest.set_object (cr : ChangeRequest) (obj : HistoryModel) : ChangeRequest :=
  if pkSet obj.pk then { cr with object_id := obj.pk, object_str := obj.label }
  else { cr with object_id := none, object_str := obj.label }

/-- Source `ChangeRequest.set_request_type`: an explicit request type wins;
else RELATED when a related type is set; else MODIFY when the object
reference is set; else ADD. -/
def ChangeRequest.set_request_type (cr : ChangeRequest) (request_type : Option RequestType) :
    ChangeRequest :=
  match request_type with
  | some t => { cr with request_type := t }
  | none =>
    if cr.related_type.isSome then { cr with request_type := RequestType.RELATED }
    else if cr.object_id.isSome then { cr with request_type := RequestType.MODIFY }
    else { cr with request_type := RequestType.ADD }

/-- Source `ChangeRequest.set_user`: stamp the acting user and their
resolved origin address from the current request. -/
def ChangeRequest.set_user (cr : ChangeRequest) (request : HttpRequest) : ChangeRequest :=
  { cr with user := request.userId, user_ip := get_ip_from_request request }

/-- The snapshot-capturing middle of `ChangeRequest.create` (the
`if cr.request_type != ChangeRequest.Type.RELATED:` block): capture
`data_revert` / `data_changed`, shrink them for MODIFY when the diff is
non-empty, and null out `data_changed` for DELETE. -/
def ChangeRequest.createData (s : SysState) (obj : HistoryModel) (cr : ChangeRequest) :
    Except String ChangeRequest :=
  if cr.request_type ≠ RequestType.RELATED then
    match HistoryModel.dataRevert s obj with
    | Except.error e => Except.error e
    | Except.ok dr =>
      let cr := { cr with data_revert := dr.map JVal.dict,
                          data_changed := some (JVal.dict obj.fields) }
      if cr.request_type = RequestType.MODIFY then
        match dr with
        | some d =>
          let fields := changed_keys d obj.fields
          if fields.length > 0 then
            Except.ok { cr with
              data_revert := some (JVal.dict (filter_data d fields)),
              data_changed := some (JVal.dict (filter_data obj.fields fields)) }
          else Except.ok cr
        | none => Except.error "AttributeError"
      else if cr.request_type = RequestType.DELETE then
        Except.ok { cr with data_changed := none }
      else Except.ok cr
  else Except.ok cr

/-- Source `ChangeRequest.create`.  The ambient thread-local request (stored
by the middleware and read through `ChangeRequest.get_request`) is passed
explicitly as `request`.  `model_to_dict(obj)` is `obj.fields`. -/
def ChangeRequest.create (s : SysState) (request : HttpRequest) (obj : HistoryModel)
    (request_type : Option RequestType := none) : Except String ChangeRequest := do
  let cr := ChangeRequest.blank
  let cr := cr.set_object obj
  let cr := cr.set_request_type request_type
  let cr := { cr with status := Status.PENDING }
  let cr ← ChangeRequest.createData s obj cr
  pure (cr.set_user request)

/-- Source `ChangeRequest.save`: persist unless the request type is MODIFY or
RELATED and `data_revert` equals `data_changed` (no-op suppression).  A
persist inserts a fresh row when the record has no pk yet, and updates the
stored row otherwise; either way a `crPersist` event is recorded. -/
def ChangeRequest.save (s : SysState) (cr : ChangeRequest) : SysState × ChangeRequest :=
  if (cr.request_type = RequestType.MODIFY ∨ cr.request_type = RequestType.RELATED)
      ∧ cr.data_revert = cr.data_changed then
    (s, cr)
  else
    match cr.pk with
    | some p =>
      ({ s with crs := assocUpdate s.crs p cr, events := s.events ++ [Event.crPersist p] }, cr)
    | none =>
      let p := s.nextCrPk
      let cr' := { cr with pk := some p }
      ({ s with crs := s.crs ++ [(p, cr')], nextCrPk := p + 1,
                events := s.events ++ [Event.crPersist p] }, cr')

/-- Django `Model.save` on the underlying tracked-entity row (the
`super().save()` call in `HistoryModel.save`): INSERT with a fresh pk when
the instance has none, UPDATE otherwise. -/
def rowSave (s : SysState) (obj : HistoryModel) : SysState × HistoryModel :=
  match obj.pk with
  | some p =>
    ({ s with rows := assocUpdate s.rows p obj.fields,
              events := s.events ++ [Event.rowWrite p] }, obj)
  | none =>
    let p := s.nextRowPk
    ({ s with rows := s.rows ++ [(p, obj.fields)], nextRowPk := p + 1,
              events := s.events ++ [Event.rowWrite p] }, { obj with pk := some p })

/-- Source `HistoryModel.save`: build the change request, force APPROVED,
attach the comment, persist it; only if it acquired a pk (was not suppressed)
and is APPROVED, write the underlying row, re-stamp the object reference and
persist the change request again.  Messages and logging have no store
effect and are omitted. -/
def HistoryModel.save (s : SysState) (request : HttpRequest) (obj : HistoryModel) :
    Except String (SysState × HistoryModel) := do
  let cr ← ChangeRequest.create s request obj
  let cr := { cr with status := Status.APPROVED, comment := obj.comment }
  let (s, cr) := ChangeRequest.save s cr
  if pkSet cr.pk then
    if cr.status = Status.APPROVED then
      let (s, obj') := rowSave s obj
      let cr := cr.set_object obj'
      let (s, _) := ChangeRequest.save s cr
      pure (s, obj')
    else pure (s, obj)
  else pure (s, obj)

/-- Django `Model.delete` on the underlying row (the `super().delete()` call
in `HistoryModel.delete`); deleting an instance without a pk is an error. -/
def rowDelete (s : SysState) (obj : HistoryModel) : Except String SysState :=
  match obj.pk with
  | some p =>
    Except.ok { s with rows := assocRemove s.rows p, events := s.events ++ [Event.rowDelete p] }
  | none => Except.error "ValueError"

/-- Source `HistoryModel.delete`: build a DELETE change request, attach the
comment, force APPROVED, persist it, then delete the underlying row. -/
def HistoryModel.delete (s : SysState) (request : HttpRequest) (obj : HistoryModel) :
    Except String SysState := do
  let cr ← ChangeRequest.create s request obj (some RequestType.DELETE)
  let cr := { cr with comment := obj.comment, status := Status.APPROVED }
  let (s, _) := ChangeRequest.save s cr
  rowDelete s obj

theorem changed_keys_self (d : Dict) : changed_keys d d = [] := by
  simp [changed_keys, List.filter_eq_nil_iff]

theorem assocLookup_mem {α : Type} (l : List (Nat × α)) (p : Nat) (v : α)
    (h : assocLookup l p = some v) : (p, v) ∈ l := by
  induction l with
  | nil => simp [assocLookup] at h
  | cons q rest ih =>
    by_cases hq : q.1 = p
    · simp only [assocLookup, if_pos hq] at h
      obtain ⟨a, b⟩ := q
      injection h with h
      subst h
      subst hq
      exact List.mem_cons_self _ _
    · simp only [assocLookup, if_neg hq] at h
      exact List.mem_cons_of_mem _ (ih h)

theorem assocLookup_map_overwrite {α : Type} (l : List (Nat × α)) (p : Nat) (v : α)
    (hany : (l.any (fun q => q.1 == p)) = true) :
    assocLookup (l.map (fun q => if q.1 == p then (p, v) else q)) p = some v := by
  induction l with
  | nil => simp at hany
  | cons q rest ih =>
    by_cases hq : q.1 = p
    · have hq' : (q.1 == p) = true := by simpa using hq
      simp only [List.map_cons, if_pos hq']
      simp [assocLookup]
    · have hq' : (q.1 == p) = false := by simpa using hq
      simp only [List.map_cons, if_neg (by simp [hq'] : ¬(q.1 == p) = true)]
      simp only [assocLookup, if_neg hq]
      exact ih (by simpa [List.any_cons, hq'] using hany)

theorem assocLookup_append_single {α : Type} (l : List (Nat × α)) (p : Nat) (v : α)
    (hany : (l.any (fun q => q.1 == p)) = false) :
    assocLookup (l ++ [(p, v)]) p = some v := by
  induction l with
  | nil => simp [assocLookup]
  | cons q rest ih =>
    simp only [List.any_cons, Bool.or_eq_false_iff] at hany
    have hq : ¬q.1 = p := by simpa using hany.1
    simp only [List.cons_append, assocLookup, if_neg hq]
    exact ih hany.2

theorem assocLookup_update_self {α : Type} (l : List (Nat × α)) (p : Nat) (v : α) :
    assocLookup (assocUpdate l p v) p = some v := by
  unfold assocUpdate
  split
  · rename_i hany
    exact assocLookup_map_overwrite l p v hany
  · rename_i hany
    refine assocLookup_append_single l p v ?_
    revert hany
    cases l.any (fun q => q.1 == p) <;> simp

theorem assocLookup_map_ne {α : Type} (l : List (Nat × α)) (p q : Nat) (v : α)
    (h : p ≠ q) :
    assocLookup (l.map (fun r => if r.1 == q then (q, v) else r)) p = assocLookup l p := by
  induction l with
  | nil => simp
  | cons r rest ih =>
    by_cases hr : r.1 = q
    · have hr' : (r.1 == q) = true := by simpa using hr
      simp only [List.map_cons, if_pos hr']
      simp only [assocLookup, if_neg (Ne.symm h), if_neg (hr ▸ Ne.symm h : ¬r.1 = p)]
      exact ih
    · have hr' : (r.1 == q) = false := by simpa using hr
      simp only [List.map_cons, if_neg (by simp [hr'] : ¬(r.1 == q) = true)]
      by_cases hp : r.1 = p
      · simp only [assocLookup, if_pos hp]
      · simp only [assocLookup, if_neg hp]
        exact ih

theorem assocLookup_append_single_ne {α : Type} (l : List (Nat × α)) (p q : Nat) (v : α)
    (h : p ≠ q) : assocLookup (l ++ [(q, v)]) p = assocLookup l p := by
  induction l with
  | nil => simp [assocLookup, Ne.symm h]
  | cons r rest ih =>
    by_cases hp : r.1 = p
    · simp only [List.cons_append, assocLookup, if_pos hp]
    · simp only [List.cons_append, assocLookup, if_neg hp]
      exact ih

theorem assocLookup_update_ne {α : Type} (l : List (Nat × α)) (p q : Nat) (v : α)
    (h : p ≠ q) : assocLookup (assocUpdate l q v) p = assocLookup l p := by
  unfold assocUpdate
  split
  · exact assocLookup_map_ne l p q v h
  · exact assocLookup_append_single_ne l p q v h

theorem assocLookup_append_left {α : Type} (l l' : List (Nat × α)) (p : Nat) (v : α)
    (h : assocLookup l p = some v) : assocLookup (l ++ l') p = some v := by
  induction l with
  | nil => simp [assocLookup] at h
  | cons q rest ih =>
    by_cases hq : q.1 = p
    · simp only [assocLookup, if_pos hq] at h
      simp [assocLookup, hq, h]
    · simp only [assocLookup, if_neg hq] at h
      simp [assocLookup, hq, ih h]

theorem assocLookup_append_fresh {α : Type} (l : List (Nat × α)) (p : Nat) (v : α)
    (h : ∀ q ∈ l, q.1 ≠ p) : assocLookup (l ++ [(p, v)]) p = some v := by
  induction l with
  | nil => simp [assocLookup]
  | cons q rest ih =>
    have hq : q.1 ≠ p := h q (by simp)
    simp only [List.cons_append, assocLookup, if_neg hq]
    exact ih (fun r hr => h r (by simp [hr]))

theorem assocLookup_remove_self {α : Type} (l : List (Nat × α)) (p : Nat) :
    assocLookup (assocRemove l p) p = none := by
  induction l with
  | nil => simp [assocRemove, assocLookup]
  | cons q rest ih =>
    by_cases hq : q.1 = p
    · simpa [assocRemove, List.filter_cons, hq] using ih
    · have hq' : (q.1 != p) = true := by simpa using hq
      simpa [assocRemove, List.filter_cons, hq', assocLookup, hq] using ih

theorem assocUpdate_lt {α : Type} (l : List (Nat × α)) (p : Nat) (v : α) (n : Nat)
    (hl : ∀ q ∈ l, q.1 < n) (hp : p < n) : ∀ q ∈ assocUpdate l p v, q.1 < n := by
  intro q hq
  unfold assocUpdate at hq
  split at hq
  · rcases List.mem_map.mp hq with ⟨r, hr, hrq⟩
    by_cases h : (r.1 == p) = true
    · rw [if_pos h] at hrq
      exact hrq ▸ hp
    · rw [if_neg h] at hrq
      exact hrq ▸ hl r hr
  · rcases List.mem_append.mp hq with hq | hq
    · exact hl q hq
    · simp at hq
      exact hq ▸ hp

/-- Case analysis on `ChangeRequest.save`: it is either suppressed (state and
record untouched), an update at the record's existing pk, or an insert at the
fresh pk `s.nextCrPk`. -/
theorem ChangeRequest.save_cases (s : SysState) (cr : ChangeRequest) :
    (ChangeRequest.save s cr = (s, cr)) ∨
    (∃ q, cr.pk = some q ∧
      ChangeRequest.save s cr
        = ({ s with crs := assocUpdate s.crs q cr,
                    events := s.events ++ [Event.crPersist q] }, cr)) ∨
    (cr.pk = none ∧
      ChangeRequest.save s cr
        = ({ s with crs := s.crs ++ [(s.nextCrPk, { cr with pk := some s.nextCrPk })],
                    nextCrPk := s.nextCrPk + 1,
                    events := s.events ++ [Event.crPersist s.nextCrPk] },
            { cr with pk := some s.nextCrPk })) := by
  unfold ChangeRequest.save
  split
  · exact Or.inl rfl
  · cases h : cr.pk with
    | some q => exact Or.inr (Or.inl ⟨q, rfl, by simp⟩)
    | none => exact Or.inr (Or.inr ⟨rfl, by simp⟩)

@[simp]
theorem set_user_pk (cr : ChangeRequest) (request : HttpRequest) :
    (cr.set_user request).pk = cr.pk := rfl

@[simp]
theorem set_user_request_type (cr : ChangeRequest) (request : HttpRequest) :
    (cr.set_user request).request_type = cr.request_type := rfl

@[simp]
theorem set_user_data_revert (cr : ChangeRequest) (request : HttpRequest) :
    (cr.set_user request).data_revert = cr.data_revert := rfl

@[simp]
theorem set_user_data_changed (cr : ChangeRequest) (request : HttpRequest) :
    (cr.set_user request).data_changed = cr.data_changed := rfl

@[simp]
theorem set_user_status (cr : ChangeRequest) (request : HttpRequest) :
    (cr.set_user request).status = cr.status := rfl

@[simp]
theorem set_user_object_id (cr : ChangeRequest) (request : HttpRequest) :
    (cr.set_user request).object_id = cr.object_id := rfl

@[simp]
theorem set_user_object_str (cr : ChangeRequest) (request : HttpRequest) :
    (cr.set_user request).object_str = cr.object_str := rfl

/-- `createData` only changes the two data fields: pk, request type, status
and the object reference pass through. -/
theorem createData_frame (s : SysState) (obj : HistoryModel) (cr cr' : ChangeRequest)
    (h : ChangeRequest.createData s obj cr = Except.ok cr') :
    cr'.pk = cr.pk ∧ cr'.request_type = cr.request_type ∧ cr'.status = cr.status
      ∧ cr'.object_id = cr.object_id ∧ cr'.object_str = cr.object_str := by
  unfold ChangeRequest.createData at h
  split at h <;> (try simp only [] at h) <;> (try split at h) <;> (try simp only [] at h) <;>
    (try split at h) <;> (try simp only [] at h) <;> (try split at h) <;>
    (try simp only [] at h) <;> (try split at h) <;>
    first
      | (injection h with h; subst h; exact ⟨rfl, rfl, rfl, rfl, rfl⟩)
      | exact absurd h (by simp)

/-- A record built by `ChangeRequest.create` is never persisted yet: its pk is
`None`. -/
theorem ChangeRequest.create_pk (s : SysState) (request : HttpRequest) (obj : HistoryModel)
    (rt : Option RequestType) (cr : ChangeRequest)
    (h : ChangeRequest.create s request obj rt = Except.ok cr) : cr.pk = none := by
  unfold ChangeRequest.create at h
  simp only [bind, Except.bind, pure] at h
  split at h
  · exact absurd h (by simp)
  · rename_i cr1 hcr1
    injection h with h
    subst h
    rw [set_user_pk]
    rw [(createData_frame _ _ _ _ hcr1).1]
    cases hobj : pkSet obj.pk <;>
      simp [ChangeRequest.set_request_type, ChangeRequest.set_object, ChangeRequest.blank, hobj] <;>
      cases rt <;> simp <;> split <;> simp

/-- Evaluation of `ChangeRequest.create` with no explicit request type on an
entity with an assigned identity whose persisted row is `d`: classification is
MODIFY, and the snapshots are shrunk exactly when the diff is non-empty. -/
theorem create_modify_eval (s : SysState) (request : HttpRequest) (obj : HistoryModel)
    (p : Nat) (d : Dict) (hp : obj.pk = some p) (hp0 : p ≠ 0)
    (hrow : assocLookup s.rows p = some d) :
    ChangeRequest.create s request obj none =
      Except.ok
        { pk := none, object_id := some p, object_str := obj.label, related_type := none,
          request_type := RequestType.MODIFY, status := Status.PENDING,
          data_revert := some (JVal.dict
            (if (changed_keys d obj.fields).length > 0
             then filter_data d (changed_keys d obj.fields) else d)),
          data_changed := some (JVal.dict
            (if (changed_keys d obj.fields).length > 0
             then filter_data obj.fields (changed_keys d obj.fields) else obj.fields)),
          comment := "", user := request.userId, user_ip := get_ip_from_request request } := by
  have hpk : pkSet (some p) = true := by simp [pkSet, hp0]
  simp only [ChangeRequest.create, ChangeRequest.createData, HistoryModel.dataRevert,
    ChangeRequest.blank, ChangeRequest.set_object, ChangeRequest.set_request_type,
    ChangeRequest.set_user, hp, hpk, hrow, bind, Except.bind, pure, if_true,
    Option.isSome_none, Option.isSome_some, Bool.false_eq_true, if_false, Option.map_some']
  rw [if_pos (show RequestType.MODIFY ≠ RequestType.RELATED from by decide)]
  split <;> rename_i heq
  · split at heq <;> exact absurd heq (by simp)
  · split at heq <;> (injection heq with heq; subst heq; simp [Except.pure, *])

/-- Evaluation of `ChangeRequest.create` with explicit DELETE request type on
an entity with an assigned identity whose persisted row is `d`. -/
theorem create_delete_eval (s : SysState) (request : HttpRequest) (obj : HistoryModel)
    (p : Nat) (d : Dict) (hp : obj.pk = some p) (hp0 : p ≠ 0)
    (hrow : assocLookup s.rows p = some d) :
    ChangeRequest.create s request obj (some RequestType.DELETE) =
      Except.ok
        { pk := none, object_id := some p, object_str := obj.label, related_type := none,
          request_type := RequestType.DELETE, status := Status.PENDING,
          data_revert := some (JVal.dict d), data_changed := none,
          comment := "", user := request.userId, user_ip := get_ip_from_request request } := by
  have hpk : pkSet (some p) = true := by simp [pkSet, hp0]
  simp [ChangeRequest.create, ChangeRequest.createData, HistoryModel.dataRevert,
    ChangeRequest.blank, ChangeRequest.set_object, ChangeRequest.set_request_type,
    ChangeRequest.set_user, hp, hpk, hrow, bind, Except.bind, pure]
  rfl

/-- The ambient request used in the concrete scenarios. -/
def scenReq : HttpRequest := ⟨none, "127.0.0.1", 5⟩

/-- Store for the C5 scenario: the entity was saved as
`{name: "john", profile: null}` (row with pk 3). -/
def scenState : SysState := ⟨[(3, [("name", Val.str "john"), ("profile", Val.null)])], [], 4, 1, []⟩

/-- The C5 scenario entity updated in memory to `{name: "john", profile: 1}`. -/
def scenEntity : HistoryModel := ⟨some 3, [("name", Val.str "john"), ("profile", Val.int 1)], "john", ""⟩

/-- Claim C5: for a MODIFY-classified `create`, with `F` the changed keys
between the persisted and in-memory snapshots, both snapshots are filtered to
the keys of `F` present in each when `F` is non-empty, and kept full when `F`
is empty; in the scenario where `{name: "john", profile: null}` was updated to
`{name: "john", profile: 1}`, the record carries `snapshot_before =
{profile: null}` and `snapshot_after = {profile: 1}`. -/
theorem create_modify_filtering :
    (∀ (s : SysState) (request : HttpRequest) (obj : HistoryModel) (p : Nat) (d : Dict),
      obj.pk = some p → p ≠ 0 → assocLookup s.rows p = some d →
      ∃ cr, ChangeRequest.create s request obj none = Except.ok cr ∧
        cr.request_type = RequestType.MODIFY ∧
        (changed_keys d obj.fields ≠ [] →
          cr.data_revert = some (JVal.dict (filter_data d (changed_keys d obj.fields))) ∧
          cr.data_changed = some (JVal.dict (filter_data obj.fields (changed_keys d obj.fields)))) ∧
        (changed_keys d obj.fields = [] →
          cr.data_revert = some (JVal.dict d) ∧
          cr.data_changed = some (JVal.dict obj.fields))) ∧
    (∃ cr, ChangeRequest.create scenState scenReq scenEntity none = Except.ok cr ∧
      cr.request_type = RequestType.MODIFY ∧
      cr.data_revert = some (JVal.dict [("profile", Val.null)]) ∧
      cr.data_changed = some (JVal.dict [("profile", Val.int 1)])) := by
  constructor
  · intro s request obj p d hp hp0 hrow
    refine ⟨_, create_modify_eval s request obj p d hp hp0 hrow, rfl, ?_, ?_⟩
    · intro hF
      have hlen : (changed_keys d obj.fields).length > 0 := List.length_pos.mpr hF
      constructor <;> simp [hlen]
    · intro hF
      constructor <;> simp [hF]
  · exact ⟨_, rfl, rfl, by decide, by decide⟩

/-- Witness for C5: the filtering equations of the universal part, applied at
the scenario input, evaluate to the scenario's concrete snapshots. -/
theorem create_modify_filtering_witness :
    ∃ cr, ChangeRequest.create scenState scenReq scenEntity none = Except.ok cr ∧
      cr.request_type = RequestType.MODIFY ∧
      cr.data_revert = some (JVal.dict (filter_data [("name", Val.str "john"), ("profile", Val.null)]
        (changed_keys [("name", Val.str "john"), ("profile", Val.null)] scenEntity.fields))) ∧
      cr.data_changed = some (JVal.dict (filter_data scenEntity.fields
        (changed_keys [("name", Val.str "john"), ("profile", Val.null)] scenEntity.fields))) := by
  obtain ⟨cr, h1, h2, h3, _⟩ := create_modify_filtering.1 scenState scenReq scenEntity 3
    [("name", Val.str "john"), ("profile", Val.null)] rfl (by decide) rfl
  obtain ⟨h4, h5⟩ := h3 (by decide)
  exact ⟨cr, h1, h2, h4, h5⟩

/-- Claim C4: classification in `set_request_type` takes the explicit value
when supplied, else RELATED when a related type is set, else MODIFY when the
object reference is set, else ADD; and `create` with no explicit type on an
entity with no assigned identity yields an ADD record with null
`data_revert`. -/
theorem create_classification :
    (∀ (cr : ChangeRequest) (rt : Option RequestType),
      (cr.set_request_type rt).request_type =
        (match rt with
          | some t => t
          | none =>
            if cr.related_type.isSome then RequestType.RELATED
            else if cr.object_id.isSome then RequestType.MODIFY
            else RequestType.ADD)) ∧
    (∀ (s : SysState) (request : HttpRequest) (obj : HistoryModel),
      obj.pk = none →
      ∃ cr, ChangeRequest.create s request obj none = Except.ok cr ∧
        cr.request_type = RequestType.ADD ∧ cr.data_revert = none) := by
  constructor
  · intro cr rt
    cases rt with
    | some t => rfl
    | none =>
      by_cases h1 : cr.related_type.isSome <;> by_cases h2 : cr.object_id.isSome <;>
        simp [ChangeRequest.set_request_type, h1, h2]
  · intro s request obj hp
    have hpk : pkSet obj.pk = false := by simp [pkSet, hp]
    simp only [ChangeRequest.create, ChangeRequest.createData, HistoryModel.dataRevert,
      ChangeRequest.blank, ChangeRequest.set_object, ChangeRequest.set_request_type,
      ChangeRequest.set_user, hpk, bind, Except.bind, pure]
    simp only [Bool.false_eq_true, if_false, Option.isSome_none, Option.map_none']
    exact ⟨_, rfl, rfl, rfl⟩

/-- Witness for C4: a pk-less entity over an empty store produces an ADD
record with null `data_revert`. -/
theorem create_classification_witness :
    ∃ cr, ChangeRequest.create ⟨[], [], 1, 1, []⟩ scenReq ⟨none, [("name", Val.str "x")], "x", ""⟩
        none = Except.ok cr ∧
      cr.request_type = RequestType.ADD ∧ cr.data_revert = none :=
  create_classification.2 ⟨[], [], 1, 1, []⟩ scenReq ⟨none, [("name", Val.str "x")], "x", ""⟩ rfl

/-- Claim C2: `ChangeRequest.save` persists nothing (store unchanged, record
unchanged and still without identity) when the request type is MODIFY or
RELATED and `data_revert` equals `data_changed`; in every other case it
persists the record: afterwards the record has a pk, is retrievable from the
store under that pk, and a persist event was appended. -/
theorem changeRequest_save_suppression (s : SysState) (cr : ChangeRequest)
    (hWF : ∀ q ∈ s.crs, q.1 < s.nextCrPk) :
    (((cr.request_type = RequestType.MODIFY ∨ cr.request_type = RequestType.RELATED)
        ∧ cr.data_revert = cr.data_changed) →
      ChangeRequest.save s cr = (s, cr)) ∧
    (¬((cr.request_type = RequestType.MODIFY ∨ cr.request_type = RequestType.RELATED)
        ∧ cr.data_revert = cr.data_changed) →
      ∃ p, (ChangeRequest.save s cr).2.pk = some p ∧
        assocLookup (ChangeRequest.save s cr).1.crs p = some (ChangeRequest.save s cr).2 ∧
        (ChangeRequest.save s cr).1.events = s.events ++ [Event.crPersist p]) := by
  constructor
  · intro h
    unfold ChangeRequest.save
    rw [if_pos h]
  · intro h
    unfold ChangeRequest.save
    rw [if_neg h]
    cases hpk : cr.pk with
    | some q =>
      refine ⟨q, hpk, ?_, rfl⟩
      exact assocLookup_update_self s.crs q cr
    | none =>
      refine ⟨s.nextCrPk, rfl, ?_, rfl⟩
      refine assocLookup_append_single s.crs s.nextCrPk _ ?_
      rw [List.any_eq_false]
      intro q hq
      have hlt := hWF q hq
      simp only [beq_iff_eq]
      omega

/-- Witness for C2: a fresh ADD record over an empty store is persisted under
pk 1 with a persist event. -/
theorem changeRequest_save_suppression_witness :
    ∃ p, (ChangeRequest.save ⟨[], [], 1, 1, []⟩ ChangeRequest.blank).2.pk = some p ∧
      assocLookup (ChangeRequest.save ⟨[], [], 1, 1, []⟩ ChangeRequest.blank).1.crs p
        = some (ChangeRequest.save ⟨[], [], 1, 1, []⟩ ChangeRequest.blank).2 ∧
      (ChangeRequest.save ⟨[], [], 1, 1, []⟩ ChangeRequest.blank).1.events
        = (⟨[], [], 1, 1, []⟩ : SysState).events ++ [Event.crPersist p] :=
  (changeRequest_save_suppression ⟨[], [], 1, 1, []⟩ ChangeRequest.blank (by simp)).2
    (by decide)

/-- Store for the C1 counterexample: row 1 is `{name: "john"}`. -/
def noopState : SysState := ⟨[(1, [("name", Val.str "john")])], [], 2, 1, []⟩

/-- Entity for the C1 counterexample: in-memory state identical to row 1. -/
def noopEntity : HistoryModel := ⟨some 1, [("name", Val.str "john")], "john", ""⟩

/-- Claim C1, counterexample: saving a tracked entity whose MODIFY change
record is suppressed as a no-op does NOT write the underlying row.  On this
concrete run `HistoryModel.save` returns the store unchanged and emits no
event at all — in particular no `rowWrite` — refuting "the underlying entity
write still proceeds unconditionally". -/
theorem historyModel_save_noop_write_counterexample :
    HistoryModel.save noopState scenReq noopEntity = Except.ok (noopState, noopEntity)
    ∧ noopState.events = [] := by
  exact ⟨rfl, rfl⟩

/-- Claim C1, amended: when a direct save's MODIFY change record is a no-op
(the persisted row equals the in-memory snapshot), the suppression extends to
the underlying write: `HistoryModel.save` leaves the store completely
unchanged — the row write is skipped together with the history record,
because the write is gated on the change record having been persisted. -/
theorem historyModel_save_noop_suppresses_write (s : SysState) (request : HttpRequest)
    (obj : HistoryModel) (p : Nat) (hp : obj.pk = some p) (hp0 : p ≠ 0)
    (hrow : assocLookup s.rows p = some obj.fields) :
    HistoryModel.save s request obj = Except.ok (s, obj) := by
  have hc := create_modify_eval s request obj p obj.fields hp hp0 hrow
  rw [changed_keys_self] at hc
  simp only [List.length_nil, gt_iff_lt, Nat.lt_irrefl, if_false, Nat.zero_lt_succ,
    show ¬(0 : Nat) > 0 by simp] at hc
  unfold HistoryModel.save
  simp only [bind, Except.bind, hc]
  simp [ChangeRequest.save, pkSet, pure]
  rfl

/-- Witness for C1 (amended claim): the amended theorem applied at the
concrete no-op run. -/
theorem historyModel_save_noop_suppresses_write_witness :
    HistoryModel.save noopState scenReq noopEntity = Except.ok (noopState, noopEntity) :=
  historyModel_save_noop_suppresses_write noopState scenReq noopEntity 1 rfl
    (by decide) rfl

/-- Store for the C7 scenario: row 7 is the entity labelled "Django". -/
def delState : SysState := ⟨[(7, [("title", Val.str "Django")])], [], 8, 1, []⟩

/-- Entity for the C7 scenario: identity 7, label "Django". -/
def delEntity : HistoryModel := ⟨some 7, [("title", Val.str "Django")], "Django", ""⟩

/-- Claim C7: deleting a tracked entity with an assigned identity produces a
DELETE change record with null `data_changed`, status forced APPROVED,
`object_id` / `object_str` taken from the entity at delete time; the change
record is persisted first and the underlying row deleted second; and in the
scenario (identity 7, label "Django") the stored record carries exactly those
values and the row is gone afterwards. -/
theorem historyModel_delete_spec :
    (∀ (s : SysState) (request : HttpRequest) (obj : HistoryModel) (p : Nat) (d : Dict),
      obj.pk = some p → p ≠ 0 → assocLookup s.rows p = some d →
      (∀ q ∈ s.crs, q.1 < s.nextCrPk) →
      ∃ s', HistoryModel.delete s request obj = Except.ok s' ∧
        (∃ cr, assocLookup s'.crs s.nextCrPk = some cr ∧
          cr.request_type = RequestType.DELETE ∧ cr.data_changed = none ∧
          cr.data_revert = some (JVal.dict d) ∧ cr.status = Status.APPROVED ∧
          cr.object_id = some p ∧ cr.object_str = obj.label) ∧
        assocLookup s'.rows p = none ∧
        s'.events = s.events ++ [Event.crPersist s.nextCrPk, Event.rowDelete p]) ∧
    (∃ s', HistoryModel.delete delState scenReq delEntity = Except.ok s' ∧
      (∃ cr, assocLookup s'.crs 1 = some cr ∧
        cr.request_type = RequestType.DELETE ∧ cr.data_changed = none ∧
        cr.status = Status.APPROVED ∧ cr.object_id = some 7 ∧ cr.object_str = "Django") ∧
      assocLookup s'.rows 7 = none ∧
      s'.events = [Event.crPersist 1, Event.rowDelete 7]) := by
  constructor
  · intro s request obj p d hp hp0 hrow hWF
    have hc := create_delete_eval s request obj p d hp hp0 hrow
    unfold HistoryModel.delete
    simp only [bind, Except.bind, hc]
    rw [show (ChangeRequest.save s
        { pk := none, object_id := some p, object_str := obj.label, related_type := none,
          request_type := RequestType.DELETE, status := Status.APPROVED,
          data_revert := some (JVal.dict d), data_changed := none,
          comment := obj.comment, user := request.userId,
          user_ip := get_ip_from_request request })
      = ({ s with
            crs := s.crs ++ [(s.nextCrPk,
              { pk := some s.nextCrPk, object_id := some p, object_str := obj.label,
                related_type := none, request_type := RequestType.DELETE,
                status := Status.APPROVED, data_revert := some (JVal.dict d),
                data_changed := none, comment := obj.comment, user := request.userId,
                user_ip := get_ip_from_request request })],
            nextCrPk := s.nextCrPk + 1,
            events := s.events ++ [Event.crPersist s.nextCrPk] },
          { pk := some s.nextCrPk, object_id := some p, object_str := obj.label,
            related_type := none, request_type := RequestType.DELETE,
            status := Status.APPROVED, data_revert := some (JVal.dict d),
            data_changed := none, comment := obj.comment, user := request.userId,
            user_ip := get_ip_from_request request })
      from by unfold ChangeRequest.save; rw [if_neg (by simp)]]
    simp only [rowDelete, hp]
    refine ⟨_, rfl,
      ⟨{ pk := some s.nextCrPk, object_id := some p, object_str := obj.label,
         related_type := none, request_type := RequestType.DELETE, status := Status.APPROVED,
         data_revert := some (JVal.dict d), data_changed := none, comment := obj.comment,
         user := request.userId, user_ip := get_ip_from_request request },
        ?_, rfl, rfl, rfl, rfl, rfl, rfl⟩, ?_, ?_⟩
    · refine assocLookup_append_single s.crs s.nextCrPk _ ?_
      rw [List.any_eq_false]
      intro q hq
      have hlt := hWF q hq
      simp only [beq_iff_eq]
      omega
    · exact assocLookup_remove_self s.rows p
    · simp
  · refine ⟨_, rfl, ⟨_, rfl, rfl, rfl, rfl, rfl, rfl⟩, rfl, rfl⟩

/-- Witness for C7: the universal part applied at the scenario input (identity
7, label "Django", pre-state `delState`). -/
theorem historyModel_delete_spec_witness :
    ∃ s', HistoryModel.delete delState scenReq delEntity = Except.ok s' ∧
      (∃ cr, assocLookup s'.crs delState.nextCrPk = some cr ∧
        cr.request_type = RequestType.DELETE ∧ cr.data_changed = none ∧
        cr.data_revert = some (JVal.dict [("title", Val.str "Django")]) ∧
        cr.status = Status.APPROVED ∧ cr.object_id = some 7 ∧
        cr.object_str = delEntity.label) ∧
      assocLookup s'.rows 7 = none ∧
      s'.events = delState.events ++ [Event.crPersist delState.nextCrPk, Event.rowDelete 7] :=
  historyModel_delete_spec.1 delState scenReq delEntity 7 [("title", Val.str "Django")]
    rfl (by decide) rfl (by intro q hq; exact absurd hq (by simp [delState]))

@[simp]
theorem set_object_pk (cr : ChangeRequest) (obj : HistoryModel) :
    (cr.set_object obj).pk = cr.pk := by
  unfold ChangeRequest.set_object
  split <;> rfl

@[simp]
theorem set_object_status (cr : ChangeRequest) (obj : HistoryModel) :
    (cr.set_object obj).status = cr.status := by
  unfold ChangeRequest.set_object
  split <;> rfl

/-- Well-formedness of the change-request table: every stored pk is below the
auto-increment counter (what a database sequence guarantees). -/
def crWF (s : SysState) : Prop := ∀ q ∈ s.crs, q.1 < s.nextCrPk

/-- `ChangeRequest.save` never disturbs a stored record whose pk differs from
the saved record's pk. -/
theorem save_preserves_stored (s : SysState) (cr : ChangeRequest) (p : Nat)
    (v : ChangeRequest) (hl : assocLookup s.crs p = some v)
    (hne : ∀ n, cr.pk = some n → p ≠ n) :
    assocLookup (ChangeRequest.save s cr).1.crs p = some v := by
  rcases ChangeRequest.save_cases s cr with h | ⟨q, hq, h⟩ | ⟨hq, h⟩
  · rw [h]
    exact hl
  · rw [h]
    exact (assocLookup_update_ne s.crs p q cr (hne q hq)).trans hl
  · rw [h]
    exact assocLookup_append_left s.crs _ p v hl

/-- `ChangeRequest.save` preserves table well-formedness provided the record's
preset pk (if any) is below the counter. -/
theorem save_preserves_WF (s : SysState) (cr : ChangeRequest)
    (hWF : crWF s) (hpk : ∀ n, cr.pk = some n → n < s.nextCrPk) :
    crWF (ChangeRequest.save s cr).1 := by
  rcases ChangeRequest.save_cases s cr with h | ⟨q, hq, h⟩ | ⟨hq, h⟩
  · rw [h]
    exact hWF
  · rw [h]
    exact assocUpdate_lt s.crs q cr s.nextCrPk hWF (hpk q hq)
  · rw [h]
    intro r hr
    rcases List.mem_append.mp hr with hr | hr
    · exact Nat.lt_succ_of_lt (hWF r hr)
    · simp at hr
      simp [hr]

/-- The auto-increment counter never decreases across `ChangeRequest.save`. -/
theorem save_nextCrPk_le (s : SysState) (cr : ChangeRequest) :
    s.nextCrPk ≤ (ChangeRequest.save s cr).1.nextCrPk := by
  rcases ChangeRequest.save_cases s cr with h | ⟨q, hq, h⟩ | ⟨hq, h⟩ <;> rw [h] <;> simp

/-- The pk of the record returned by `ChangeRequest.save` is the record's own
pk or the fresh counter value. -/
theorem save_result_pk (s : SysState) (cr : ChangeRequest) :
    (ChangeRequest.save s cr).2.pk = cr.pk ∨
      ((ChangeRequest.save s cr).2.pk = some s.nextCrPk
        ∧ (ChangeRequest.save s cr).1.nextCrPk = s.nextCrPk + 1) := by
  rcases ChangeRequest.save_cases s cr with h | ⟨q, hq, h⟩ | ⟨hq, h⟩ <;> rw [h] <;> simp

/-- `rowSave` touches only the entity table: the change-request table, its
counter and nothing else about `crs` change. -/
theorem rowSave_crs (s : SysState) (obj : HistoryModel) :
    (rowSave s obj).1.crs = s.crs ∧ (rowSave s obj).1.nextCrPk = s.nextCrPk := by
  unfold rowSave
  cases obj.pk <;> simp

/-- Source `HistoryModel.save_related`: build a RELATED change request for a
dependent formset, force APPROVED, snapshot the formset's persisted and
entered rows, persist the record; when it was persisted and is APPROVED, save
the formset (abstracted as a `formsetSave` event on the child table, which is
outside this store), refresh `data_changed` from the re-read rows and persist
the record again.  The formset contents are passed explicitly: `dr` is
`formset_data_revert(formset)`, `dc` is `formset_data_changed(formset)`, and
`refreshed` is `formset_data_revert(formset)` re-read after the save. -/
def HistoryModel.save_related (s : SysState) (request : HttpRequest) (obj : HistoryModel)
    (relType : Nat) (dr dc refreshed : List Dict) : Except String SysState := do
  let cr ← ChangeRequest.create s request obj (some RequestType.RELATED)
  let cr := { cr with related_type := some relType, status := Status.APPROVED,
                      data_revert := some (JVal.rows dr),
                      data_changed := some (JVal.rows dc),
                      comment := obj.comment }
  let (s, cr) := ChangeRequest.save s cr
  if pkSet cr.pk then
    if cr.status = Status.APPROVED then
      let s := { s with events := s.events ++ [Event.formsetSave] }
      let cr := { cr with data_changed := some (JVal.rows refreshed) }
      let (s, _) := ChangeRequest.save s cr
      pure s
    else pure s
  else pure s

/-- The legal edges of the moderation state machine: PENDING may move to
APPROVED, DENIED or WITHDRAWN, and APPROVED may move to REVERTED. -/
def allowedTransition : Status → Status → Bool
  | Status.PENDING, Status.APPROVED => true
  | Status.PENDING, Status.DENIED => true
  | Status.PENDING, Status.WITHDRAWN => true
  | Status.APPROVED, Status.REVERTED => true
  | _, _ => false

/-- Modelled from the spec: the moderation action on a persisted Change
Record.  The repository leaves this endpoint unimplemented (`urls.py` routes
`<int:pk>/action` to a placeholder marked "TODO: Replace with proper view"),
so per §4.4 of the spec the action transitions PENDING to APPROVED, DENIED or
WITHDRAWN and APPROVED to REVERTED, rejecting every other transition.  The
deferred underlying write that §4.4 attaches to a PENDING→APPROVED moderation
does not touch the status field and is not modelled here. -/
def moderate (s : SysState) (p : Nat) (target : Status) : SysState :=
  match assocLookup s.crs p with
  | some cr =>
    if allowedTransition cr.status target then
      { s with crs := assocUpdate s.crs p { cr with status := target } }
    else s
  | none => s

/-- The operations of the system that touch Change Records: a direct tracked
save, a related-formset save, a tracked delete, and the (spec-modelled)
moderation action. -/
inductive SysOp where
  | opSave (request : HttpRequest) (obj : HistoryModel)
  | opSaveRelated (request : HttpRequest) (obj : HistoryModel) (relType : Nat)
      (dr dc refreshed : List Dict)
  | opDelete (request : HttpRequest) (obj : HistoryModel)
  | opModerate (p : Nat) (target : Status)

/-- One system step.  A raised exception aborts the unit of work and rolls the
transaction back (the views wrap each mutation in `transaction.atomic`), so an
erroring operation leaves the store unchanged. -/
def sysStep (s : SysState) : SysOp → SysState
  | SysOp.opSave request obj =>
    match HistoryModel.save s request obj with
    | Except.ok r => r.1
    | Except.error _ => s
  | SysOp.opSaveRelated request obj relType dr dc refreshed =>
    match HistoryModel.save_related s request obj relType dr dc refreshed with
    | Except.ok s' => s'
    | Except.error _ => s
  | SysOp.opDelete request obj =>
    match HistoryModel.delete s request obj with
    | Except.ok s' => s'
    | Except.error _ => s
  | SysOp.opModerate p target => moderate s p target

/-- The empty initial store with database sequences starting at 1. -/
def initState : SysState := ⟨[], [], 1, 1, []⟩

/-- States reachable from the empty store by system operations. -/
inductive Reachable : SysState → Prop where
  | init : Reachable initState
  | step (s : SysState) (op : SysOp) : Reachable s → Reachable (sysStep s op)

/-- `HistoryModel.save` never disturbs a previously stored change record, and
it preserves table well-formedness. -/
theorem historyModel_save_preserves (s : SysState) (request : HttpRequest)
    (obj : HistoryModel) (hWF : crWF s) (r : SysState × HistoryModel)
    (h : HistoryModel.save s request obj = Except.ok r) :
    (∀ p v, assocLookup s.crs p = some v → assocLookup r.1.crs p = some v) ∧ crWF r.1 := by
  unfold HistoryModel.save at h
  simp only [bind, Except.bind] at h
  cases hc : ChangeRequest.create s request obj with
  | error e => rw [hc] at h; exact absurd h (by simp)
  | ok cr1 =>
    rw [hc] at h
    simp only [] at h
    have hpk1 : cr1.pk = none := ChangeRequest.create_pk s request obj none cr1 hc
    rcases hsv1 : ChangeRequest.save s
        { cr1 with status := Status.APPROVED, comment := obj.comment } with ⟨s1, cr3⟩
    rw [hsv1] at h
    have hpk2 : ({ cr1 with status := Status.APPROVED, comment := obj.comment
                 } : ChangeRequest).pk = none := hpk1
    have hcases := ChangeRequest.save_cases s
      { cr1 with status := Status.APPROVED, comment := obj.comment }
    rw [hsv1] at hcases
    rcases hcases with hA | ⟨q, hq, hB⟩ | ⟨hq, hC⟩
    · have hs1 : s1 = s := congrArg Prod.fst hA
      have hcr3 : cr3 = { cr1 with status := Status.APPROVED, comment := obj.comment } :=
        congrArg Prod.snd hA
      have hpk3 : cr3.pk = none := by rw [hcr3]; exact hpk2
      rw [hpk3] at h
      simp only [pkSet, Bool.false_eq_true, if_false, pure, Except.pure,
        Except.ok.injEq] at h
      subst h
      rw [hs1]
      exact ⟨fun p v hv => hv, hWF⟩
    · rw [hpk2] at hq
      exact absurd hq (by simp)
    · have hs1 : s1 = _ := congrArg Prod.fst hC
      have hcr3 : cr3 = _ := congrArg Prod.snd hC
      have hpk3 : cr3.pk = some s.nextCrPk := by rw [hcr3]
      have hs1crs : s1.crs = s.crs ++ [(s.nextCrPk, cr3)] := by
        rw [hs1, hcr3]
      have hs1next : s1.nextCrPk = s.nextCrPk + 1 := by rw [hs1]
      have hWF1 : crWF s1 := by
        intro q hq'
        rw [hs1crs] at hq'
        rw [hs1next]
        rcases List.mem_append.mp hq' with hq' | hq'
        · exact Nat.lt_succ_of_lt (hWF q hq')
        · simp at hq'
          simp [hq']
      have hlook1 : ∀ p v, assocLookup s.crs p = some v → assocLookup s1.crs p = some v := by
        intro p v hv
        rw [hs1crs]
        exact assocLookup_append_left s.crs _ p v hv
      rw [hpk3] at h
      cases hps : pkSet (some s.nextCrPk) with
      | false =>
        rw [hps] at h
        simp only [Bool.false_eq_true, if_false, pure, Except.pure, Except.ok.injEq] at h
        subst h
        exact ⟨hlook1, hWF1⟩
      | true =>
        rw [hps] at h
        have hst3 : cr3.status = Status.APPROVED := by rw [hcr3]
        simp only [if_true, hst3, eq_self_iff_true] at h
        rcases hrs : rowSave s1 obj with ⟨s2, obj2⟩
        rw [hrs] at h
        have hs2crs : s2.crs = s1.crs := by
          have := (rowSave_crs s1 obj).1
          rw [hrs] at this
          exact this
        have hs2next : s2.nextCrPk = s1.nextCrPk := by
          have := (rowSave_crs s1 obj).2
          rw [hrs] at this
          exact this
        rcases hsv2 : ChangeRequest.save s2 (cr3.set_object obj2) with ⟨s3, cr5⟩
        rw [hsv2] at h
        simp only [pure, Except.pure, Except.ok.injEq] at h
        subst h
        have hpk4 : (cr3.set_object obj2).pk = some s.nextCrPk := by
          rw [set_object_pk]
          exact hpk3
        constructor
        · intro p v hv
          have hmem := assocLookup_mem s.crs p v hv
          have hplt : p < s.nextCrPk := hWF (p, v) hmem
          have hv2 : assocLookup s2.crs p = some v := by
            rw [hs2crs]
            exact hlook1 p v hv
          have hres := save_preserves_stored s2 (cr3.set_object obj2) p v hv2
            (by
              intro n hn
              rw [hpk4] at hn
              injection hn with hn
              omega)
          rw [hsv2] at hres
          exact hres
        · have hWF2 : crWF s2 := by
            intro q hq'
            rw [hs2crs] at hq'
            rw [hs2next]
            exact hWF1 q hq'
          have hres := save_preserves_WF s2 (cr3.set_object obj2) hWF2
            (by
              intro n hn
              rw [hpk4] at hn
              injection hn with hn
              rw [hs2next, hs1next]
              omega)
          rw [hsv2] at hres
          exact hres

/-- `HistoryModel.save_related` never disturbs a previously stored change
record, and it preserves table well-formedness. -/
theorem historyModel_save_related_preserves (s : SysState) (request : HttpRequest)
    (obj : HistoryModel) (relType : Nat) (dr dc refreshed : List Dict)
    (hWF : crWF s) (r : SysState)
    (h : HistoryModel.save_related s request obj relType dr dc refreshed = Except.ok r) :
    (∀ p v, assocLookup s.crs p = some v → assocLookup r.crs p = some v) ∧ crWF r := by
  unfold HistoryModel.save_related at h
  simp only [bind, Except.bind] at h
  cases hc : ChangeRequest.create s request obj (some RequestType.RELATED) with
  | error e => rw [hc] at h; exact absurd h (by simp)
  | ok cr1 =>
    rw [hc] at h
    simp only [] at h
    have hpk1 : cr1.pk = none := ChangeRequest.create_pk s request obj _ cr1 hc
    rcases hsv1 : ChangeRequest.save s
        { cr1 with
          related_type := some relType
          status := Status.APPROVED
          data_revert := some (JVal.rows dr)
          data_changed := some (JVal.rows dc)
          comment := obj.comment } with ⟨s1, cr3⟩
    rw [hsv1] at h
    have hpk2 : ({ cr1 with
        related_type := some relType
        status := Status.APPROVED
        data_revert := some (JVal.rows dr)
        data_changed := some (JVal.rows dc)
        comment := obj.comment } : ChangeRequest).pk = none := hpk1
    have hcases := ChangeRequest.save_cases s
      { cr1 with
        related_type := some relType
        status := Status.APPROVED
        data_revert := some (JVal.rows dr)
        data_changed := some (JVal.rows dc)
        comment := obj.comment }
    rw [hsv1] at hcases
    rcases hcases with hA | ⟨q, hq, hB⟩ | ⟨hq, hC⟩
    · have hs1 : s1 = s := congrArg Prod.fst hA
      have hcr3 : cr3 = _ := congrArg Prod.snd hA
      have hpk3 : cr3.pk = none := by rw [hcr3]; exact hpk2
      rw [hpk3] at h
      simp only [pkSet, Bool.false_eq_true, if_false, pure, Except.pure,
        Except.ok.injEq] at h
      subst h
      rw [hs1]
      exact ⟨fun p v hv => hv, hWF⟩
    · rw [hpk2] at hq
      exact absurd hq (by simp)
    · have hs1 : s1 = _ := congrArg Prod.fst hC
      have hcr3 : cr3 = _ := congrArg Prod.snd hC
      have hpk3 : cr3.pk = some s.nextCrPk := by rw [hcr3]
      have hs1crs : s1.crs = s.crs ++ [(s.nextCrPk, cr3)] := by
        rw [hs1, hcr3]
      have hs1next : s1.nextCrPk = s.nextCrPk + 1 := by rw [hs1]
      have hWF1 : crWF s1 := by
        intro q hq'
        rw [hs1crs] at hq'
        rw [hs1next]
        rcases List.mem_append.mp hq' with hq' | hq'
        · exact Nat.lt_succ_of_lt (hWF q hq')
        · simp at hq'
          simp [hq']
      have hlook1 : ∀ p v, assocLookup s.crs p = some v → assocLookup s1.crs p = some v := by
        intro p v hv
        rw [hs1crs]
        exact assocLookup_append_left s.crs _ p v hv
      rw [hpk3] at h
      cases hps : pkSet (some s.nextCrPk) with
      | false =>
        rw [hps] at h
        simp only [Bool.false_eq_true, if_false, pure, Except.pure, Except.ok.injEq] at h
        subst h
        exact ⟨hlook1, hWF1⟩
      | true =>
        rw [hps] at h
        have hst3 : cr3.status = Status.APPROVED := by rw [hcr3]
        simp only [if_true, hst3, eq_self_iff_true] at h
        simp only [pure, Except.pure, Except.ok.injEq] at h
        subst h
        have hpk4 : ({ cr3 with data_changed := some (JVal.rows refreshed) }
            : ChangeRequest).pk = some s.nextCrPk := hpk3
        constructor
        · intro p v hv
          have hmem := assocLookup_mem s.crs p v hv
          have hplt : p < s.nextCrPk := hWF (p, v) hmem
          refine save_preserves_stored _ _ p v (hlook1 p v hv) ?_
          intro n hn
          have hn' : some s.nextCrPk = some n := hn
          injection hn' with hn'
          omega
        · refine save_preserves_WF _ _ (fun q hq' => hWF1 q hq') ?_
          intro n hn
          have hn' : some s.nextCrPk = some n := hn
          injection hn' with hn'
          show n < s1.nextCrPk
          rw [hs1next]
          omega


/-- `HistoryModel.delete` never disturbs a previously stored change record,
and it preserves table well-formedness. -/
theorem historyModel_delete_preserves (s : SysState) (request : HttpRequest)
    (obj : HistoryModel) (hWF : crWF s) (r : SysState)
    (h : HistoryModel.delete s request obj = Except.ok r) :
    (∀ p v, assocLookup s.crs p = some v → assocLookup r.crs p = some v) ∧ crWF r := by
  unfold HistoryModel.delete at h
  simp only [bind, Except.bind] at h
  cases hc : ChangeRequest.create s request obj (some RequestType.DELETE) with
  | error e => rw [hc] at h; exact absurd h (by simp)
  | ok cr1 =>
    rw [hc] at h
    simp only [] at h
    have hpk1 : cr1.pk = none := ChangeRequest.create_pk s request obj _ cr1 hc
    rcases hsv1 : ChangeRequest.save s
        { cr1 with comment := obj.comment, status := Status.APPROVED } with ⟨s1, cr3⟩
    rw [hsv1] at h
    have hpk2 : ({ cr1 with comment := obj.comment, status := Status.APPROVED }
        : ChangeRequest).pk = none := hpk1
    have hcases := ChangeRequest.save_cases s
      { cr1 with comment := obj.comment, status := Status.APPROVED }
    rw [hsv1] at hcases
    have hlook : (∀ p v, assocLookup s.crs p = some v → assocLookup s1.crs p = some v)
        ∧ crWF s1 := by
      rcases hcases with hA | ⟨q, hq, hB⟩ | ⟨hq, hC⟩
      · have hs1 : s1 = s := congrArg Prod.fst hA
        rw [hs1]
        exact ⟨fun p v hv => hv, hWF⟩
      · rw [hpk2] at hq
        exact absurd hq (by simp)
      · have hs1 : s1 = _ := congrArg Prod.fst hC
        have hs1crs : s1.crs = s.crs ++ [(s.nextCrPk,
            { cr1 with
              comment := obj.comment
              status := Status.APPROVED
              pk := some s.nextCrPk })] := by rw [hs1]
        have hs1next : s1.nextCrPk = s.nextCrPk + 1 := by rw [hs1]
        constructor
        · intro p v hv
          rw [hs1crs]
          exact assocLookup_append_left s.crs _ p v hv
        · intro q hq'
          rw [hs1crs] at hq'
          rw [hs1next]
          rcases List.mem_append.mp hq' with hq' | hq'
          · exact Nat.lt_succ_of_lt (hWF q hq')
          · simp at hq'
            simp [hq']
    unfold rowDelete at h
    cases hop : obj.pk with
    | some p0 =>
      rw [hop] at h
      simp only [Except.ok.injEq] at h
      subst h
      exact hlook
    | none =>
      rw [hop] at h
      exact absurd h (by simp)

/-- The moderation action changes a stored record's status only along an
allowed edge, and leaves every other stored record untouched. -/
theorem moderate_stored (s : SysState) (p0 : Nat) (target : Status) (p : Nat)
    (cr cr' : ChangeRequest) (hl : assocLookup s.crs p = some cr)
    (hl' : assocLookup (moderate s p0 target).crs p = some cr') :
    cr'.status = cr.status ∨ allowedTransition cr.status cr'.status = true := by
  unfold moderate at hl'
  cases hm : assocLookup s.crs p0 with
  | none =>
    rw [hm] at hl'
    rw [hl] at hl'
    injection hl' with hl'
    left
    rw [← hl']
  | some cr0 =>
    rw [hm] at hl'
    simp only [] at hl'
    by_cases hal : allowedTransition cr0.status target = true
    · rw [if_pos hal] at hl'
      by_cases hp : p = p0
      · subst hp
        rw [hl] at hm
        injection hm with hm
        rw [show ({ s with crs := assocUpdate s.crs p { cr0 with status := target } }
            : SysState).crs = assocUpdate s.crs p { cr0 with status := target } from rfl] at hl'
        rw [assocLookup_update_self] at hl'
        injection hl' with hl'
        right
        rw [← hl', hm]
        exact hal
      · rw [show ({ s with crs := assocUpdate s.crs p0 { cr0 with status := target } }
            : SysState).crs = assocUpdate s.crs p0 { cr0 with status := target } from rfl] at hl'
        rw [assocLookup_update_ne s.crs p p0 _ hp] at hl'
        rw [hl] at hl'
        injection hl' with hl'
        left
        rw [← hl']
    · rw [if_neg hal] at hl'
      rw [hl] at hl'
      injection hl' with hl'
      left
      rw [← hl']

/-- The moderation action preserves table well-formedness. -/
theorem moderate_WF (s : SysState) (p0 : Nat) (target : Status) (hWF : crWF s) :
    crWF (moderate s p0 target) := by
  unfold moderate
  cases hm : assocLookup s.crs p0 with
  | none => exact hWF
  | some cr0 =>
    simp only []
    by_cases hal : allowedTransition cr0.status target = true
    · rw [if_pos hal]
      intro q hq
      refine assocUpdate_lt s.crs p0 _ s.nextCrPk hWF ?_ q hq
      exact hWF (p0, cr0) (assocLookup_mem _ _ _ hm)
    · rw [if_neg hal]
      exact hWF

/-- One system step changes a stored record's status only along an allowed
edge (or not at all), provided the table is well-formed. -/
theorem sysStep_status_edge (s : SysState) (op : SysOp) (hWF : crWF s) (p : Nat)
    (cr cr' : ChangeRequest) (hl : assocLookup s.crs p = some cr)
    (hl' : assocLookup (sysStep s op).crs p = some cr') :
    cr'.status = cr.status ∨ allowedTransition cr.status cr'.status = true := by
  cases op with
  | opSave request obj =>
    unfold sysStep at hl'
    simp only [] at hl'
    cases hres : HistoryModel.save s request obj with
    | ok r =>
      rw [hres] at hl'
      rw [(historyModel_save_preserves s request obj hWF r hres).1 p cr hl] at hl'
      injection hl' with hl'
      left
      rw [← hl']
    | error e =>
      rw [hres] at hl'
      rw [hl] at hl'
      injection hl' with hl'
      left
      rw [← hl']
  | opSaveRelated request obj relType dr dc refreshed =>
    unfold sysStep at hl'
    simp only [] at hl'
    cases hres : HistoryModel.save_related s request obj relType dr dc refreshed with
    | ok r =>
      rw [hres] at hl'
      rw [(historyModel_save_related_preserves s request obj relType dr dc refreshed
        hWF r hres).1 p cr hl] at hl'
      injection hl' with hl'
      left
      rw [← hl']
    | error e =>
      rw [hres] at hl'
      rw [hl] at hl'
      injection hl' with hl'
      left
      rw [← hl']
  | opDelete request obj =>
    unfold sysStep at hl'
    simp only [] at hl'
    cases hres : HistoryModel.delete s request obj with
    | ok r =>
      rw [hres] at hl'
      rw [(historyModel_delete_preserves s request obj hWF r hres).1 p cr hl] at hl'
      injection hl' with hl'
      left
      rw [← hl']
    | error e =>
      rw [hres] at hl'
      rw [hl] at hl'
      injection hl' with hl'
      left
      rw [← hl']
  | opModerate p0 target =>
    exact moderate_stored s p0 target p cr cr' hl hl'

/-- One system step preserves table well-formedness. -/
theorem sysStep_WF (s : SysState) (op : SysOp) (hWF : crWF s) : crWF (sysStep s op) := by
  cases op with
  | opSave request obj =>
    unfold sysStep
    simp only []
    cases hres : HistoryModel.save s request obj with
    | ok r => exact (historyModel_save_preserves s request obj hWF r hres).2
    | error e => exact hWF
  | opSaveRelated request obj relType dr dc refreshed =>
    unfold sysStep
    simp only []
    cases hres : HistoryModel.save_related s request obj relType dr dc refreshed with
    | ok r => exact (historyModel_save_related_preserves s request obj relType dr dc
        refreshed hWF r hres).2
    | error e => exact hWF
  | opDelete request obj =>
    unfold sysStep
    simp only []
    cases hres : HistoryModel.delete s request obj with
    | ok r => exact (historyModel_delete_preserves s request obj hWF r hres).2
    | error e => exact hWF
  | opModerate p0 target => exact moderate_WF s p0 target hWF

/-- Every reachable store is well-formed. -/
theorem reachable_WF (s : SysState) (hs : Reachable s) : crWF s := by
  induction hs with
  | init => intro q hq; exact absurd hq (by simp [initState])
  | step s' op _ ih => exact sysStep_WF s' op ih

/-- Claim C3: along every system operation from a reachable store, the status
of a stored Change Record moves only along the edges PENDING→APPROVED,
PENDING→DENIED, PENDING→WITHDRAWN and APPROVED→REVERTED (or does not move at
all): transitions are one-directional and REVERTED may only follow
APPROVED. -/
theorem status_transitions (s : SysState) (hs : Reachable s) (op : SysOp) (p : Nat)
    (cr cr' : ChangeRequest)
    (hl : assocLookup s.crs p = some cr)
    (hl' : assocLookup (sysStep s op).crs p = some cr') :
    cr'.status = cr.status ∨ allowedTransition cr.status cr'.status = true :=
  sysStep_status_edge s op (reachable_WF s hs) p cr cr' hl hl'

/-- The store after saving one new entity from the empty store. -/
def wState1 : SysState :=
  sysStep initState (SysOp.opSave scenReq ⟨none, [("name", Val.str "x")], "x", ""⟩)

/-- The change record stored under pk 1 in `wState1`. -/
def wCrA : ChangeRequest :=
  { pk := some 1, object_id := some 1, object_str := "x", related_type := none,
    request_type := RequestType.ADD, status := Status.APPROVED, data_revert := none,
    data_changed := some (JVal.dict [("name", Val.str "x")]), comment := "", user := 5,
    user_ip := "127.0.0.1" }

/-- The same record after a moderator reverts it. -/
def wCrB : ChangeRequest := { wCrA with status := Status.REVERTED }

/-- Witness for C3: moderating the approved record of `wState1` to REVERTED
is a step along the allowed edge APPROVED→REVERTED. -/
theorem status_transitions_witness :
    wCrB.status = wCrA.status ∨ allowedTransition wCrA.status wCrB.status = true :=
  status_transitions wState1
    (Reachable.step initState (SysOp.opSave scenReq ⟨none, [("name", Val.str "x")], "x", ""⟩)
      Reachable.init)
    (SysOp.opModerate 1 Status.REVERTED) 1 wCrA wCrB (by decide) (by decide)

/-- Lookup in a Python dict keyed by primary-key values. -/
def vlookup {α : Type} : List (Val × α) → Val → Option α
  | [], _ => none
  | (k, v) :: rest, k' => if k = k' then some v else vlookup rest k'

/-- Assignment `d[k] = v` in a Python dict keyed by primary-key values:
overwrite the existing entry in place, or append a new one. -/
def vinsert {α : Type} : List (Val × α) → Val → α → List (Val × α)
  | [], k, v => [(k, v)]
  | (k', v') :: rest, k, v =>
    if k' = k then (k, v) :: rest else (k', v') :: vinsert rest k v

/-- The `existing` list of `diff_related`: primary-key values of the
`data_revert` rows whose pk entry is present and truthy. -/
def revertPks (pkName : String) (dr : Option (List Dict)) : List Val :=
  match dr with
  | some rows => rows.filterMap (fun item =>
      match dget item pkName with
      | some v => if v.truthy then some v else none
      | none => none)
  | none => []

/-- The guard of the first pass of `diff_related`
(`if pk in item and item[pk] and item[pk] in existing`). -/
def relatedMatch (pkName : String) (existingPks : List Val) (item : Dict) : Bool :=
  match dget item pkName with
  | some v => v.truthy && decide (v ∈ existingPks)
  | none => false

/-- First pass of `diff_related` over `data_changed`: unmatched rows are
appended to `added` (ordered by the declared field order `fo`, rendered by
`showR` into `added_str`), matched rows are collected into the `changed`
dict keyed by their pk value. -/
def relatedPass1 (pkName : String) (fo : List String) (showR : Dict → String)
    (existingPks : List Val) :
    List Dict → List Dict → List String → List (Val × Dict) →
      (List Dict × List String × List (Val × Dict))
  | [], added, addedStr, changed => (added, addedStr, changed)
  | item :: rest, added, addedStr, changed =>
    if relatedMatch pkName existingPks item then
      match dget item pkName with
      | some v => relatedPass1 pkName fo showR existingPks rest added addedStr
          (vinsert changed v item)
      | none => relatedPass1 pkName fo showR existingPks rest added addedStr changed
    else
      relatedPass1 pkName fo showR existingPks rest
        (added ++ [filter_data item fo]) (addedStr ++ [showR item]) changed

/-- Accumulator of the second pass of `diff_related`. -/
structure Pass2Acc where
  existing : List (Val × Dict)
  modified : List (Val × List String)
  modified_str : List String
  deleted : List Val
  deleted_str : List String
deriving DecidableEq, Repr

/-- Second pass of `diff_related` over `data_revert`: each row reads
`item[pk]` unguarded (KeyError when absent); rows matched in `changed` with a
non-empty field diff are recorded in `modified` (and their changed row is
displayed in `existing`), unmatched rows are recorded in `deleted`. -/
def relatedPass2 (pkName : String) (fo : List String) (showR : Dict → String)
    (changed : List (Val × Dict)) :
    List Dict → Pass2Acc → Except String Pass2Acc
  | [], acc => Except.ok acc
  | item :: rest, acc =>
    match dget item pkName with
    | none => Except.error "KeyError"
    | some v =>
      match vlookup changed v with
      | some c =>
        if (changed_keys item c).length > 0 then
          relatedPass2 pkName fo showR changed rest
            { acc with
              modified := vinsert acc.modified v (changed_keys item c)
              modified_str := acc.modified_str ++ [showR item]
              existing := vinsert acc.existing v (filter_data c fo) }
        else
          relatedPass2 pkName fo showR changed rest
            { acc with existing := vinsert acc.existing v (filter_data item fo) }
      | none =>
        relatedPass2 pkName fo showR changed rest
          { acc with
            deleted := acc.deleted ++ [v]
            deleted_str := acc.deleted_str ++ [showR item]
            existing := vinsert acc.existing v (filter_data item fo) }

/-- The result dict of `ChangeRequest.diff_related`. -/
structure RelatedDiff where
  pk : String
  fields : List String
  added : List Dict
  added_str : List String
  existing : List (Val × Dict)
  modified : List (Val × List String)
  modified_str : List String
  deleted : List Val
  deleted_str : List String
deriving DecidableEq, Repr

/-- Source `ChangeRequest.diff_related`.  The schema introspection is passed
explicitly: `pkName` is the related model's primary-key field name, `fo` its
declared field names in order (so `order_fields(data, related=True)` is
`filter_data data fo`), and `showR` renders a row dict through the related
model's `__str__` (used only for the `*_str` presentation lists). -/
def diff_related (pkName : String) (fo : List String) (showR : Dict → String)
    (dr dc : Option (List Dict)) : Except String RelatedDiff :=
  let existingPks := revertPks pkName dr
  match relatedPass1 pkName fo showR existingPks (dc.getD []) [] [] [] with
  | (added, added_str, changed) =>
    match relatedPass2 pkName fo showR changed (dr.getD []) ⟨[], [], [], [], []⟩ with
    | Except.ok acc =>
      Except.ok ⟨pkName, fo, added, added_str, acc.existing, acc.modified,
        acc.modified_str, acc.deleted, acc.deleted_str⟩
    | Except.error e => Except.error e

/-- The second pass raises `KeyError` as soon as some revert row lacks the
primary-key key. -/
theorem relatedPass2_error (pkName : String) (fo : List String) (showR : Dict → String)
    (changed : List (Val × Dict)) :
    ∀ (rows : List Dict) (acc : Pass2Acc),
      (∃ item ∈ rows, dget item pkName = none) →
      relatedPass2 pkName fo showR changed rows acc = Except.error "KeyError" := by
  intro rows
  induction rows with
  | nil => intro acc h; simp at h
  | cons item rest ih =>
    intro acc h
    cases hd : dget item pkName with
    | none => simp [relatedPass2, hd]
    | some v =>
      have hrest : ∃ it ∈ rest, dget it pkName = none := by
        rcases h with ⟨it, hit, hkey⟩
        rcases List.mem_cons.mp hit with hit | hit
        · subst hit
          rw [hd] at hkey
          exact absurd hkey (by simp)
        · exact ⟨it, hit, hkey⟩
      simp only [relatedPass2, hd]
      cases hv : vlookup changed v with
      | some c =>
        by_cases hlen : (changed_keys item c).length > 0
        · simp only [if_pos hlen]
          exact ih _ hrest
        · simp only [if_neg hlen]
          exact ih _ hrest
      | none => exact ih _ hrest

/-- The second pass succeeds when every revert row has the primary-key key. -/
theorem relatedPass2_ok (pkName : String) (fo : List String) (showR : Dict → String)
    (changed : List (Val × Dict)) :
    ∀ (rows : List Dict) (acc : Pass2Acc),
      (∀ item ∈ rows, (dget item pkName).isSome) →
      ∃ acc', relatedPass2 pkName fo showR changed rows acc = Except.ok acc' := by
  intro rows
  induction rows with
  | nil => intro acc _; exact ⟨acc, rfl⟩
  | cons item rest ih =>
    intro acc h
    cases hd : dget item pkName with
    | none =>
      have := h item (by simp)
      rw [hd] at this
      exact absurd this (by simp)
    | some v =>
      have hrest : ∀ it ∈ rest, (dget it pkName).isSome :=
        fun it hit => h it (by simp [hit])
      simp only [relatedPass2, hd]
      cases hv : vlookup changed v with
      | some c =>
        by_cases hlen : (changed_keys item c).length > 0
        · simp only [if_pos hlen]
          exact ih _ hrest
        · simp only [if_neg hlen]
          exact ih _ hrest
      | none => exact ih _ hrest

/-- Claim C10: `diff_related` is total exactly when every `data_revert` row
contains the primary-key field; a row of `data_revert` lacking the pk key
makes it raise `KeyError` (the `data_changed` pass guards against a missing or
falsy identity, the `data_revert` pass reads `item[pk]` unguarded). -/
theorem diff_related_totality (pkName : String) (fo : List String)
    (showR : Dict → String) (rows : List Dict) (dc : Option (List Dict)) :
    ((∃ item ∈ rows, hasKey item pkName = false) →
      diff_related pkName fo showR (some rows) dc = Except.error "KeyError") ∧
    ((∀ item ∈ rows, hasKey item pkName = true) →
      ∃ r, diff_related pkName fo showR (some rows) dc = Except.ok r) := by
  constructor
  · intro h
    unfold diff_related
    rcases hp1 : relatedPass1 pkName fo showR (revertPks pkName (some rows)) (dc.getD [])
        [] [] [] with ⟨added, added_str, changed⟩
    simp only [Option.getD_some]
    rw [hp1]
    simp only []
    have herr : relatedPass2 pkName fo showR changed rows ⟨[], [], [], [], []⟩
        = Except.error "KeyError" := by
      refine relatedPass2_error pkName fo showR changed rows _ ?_
      rcases h with ⟨item, hit, hkey⟩
      refine ⟨item, hit, ?_⟩
      cases hx : dget item pkName with
      | none => rfl
      | some v =>
        rw [hasKey, hx] at hkey
        simp at hkey
    rw [herr]
  · intro h
    unfold diff_related
    rcases hp1 : relatedPass1 pkName fo showR (revertPks pkName (some rows)) (dc.getD [])
        [] [] [] with ⟨added, added_str, changed⟩
    simp only [Option.getD_some]
    rw [hp1]
    simp only []
    have hok := relatedPass2_ok pkName fo showR changed rows ⟨[], [], [], [], []⟩
      (fun item hit => by rw [← hasKey]; exact h item hit)
    rcases hok with ⟨acc', hacc⟩
    rw [hacc]
    exact ⟨_, rfl⟩

/-- Witness for C10: a revert row without the pk key raises `KeyError`, and
with the key present `diff_related` succeeds. -/
theorem diff_related_totality_witness :
    diff_related "id" ["id", "name"] (fun _ => "") (some [[("name", Val.str "x")]])
        (some []) = Except.error "KeyError"
    ∧ ∃ r, diff_related "id" ["id", "name"] (fun _ => "")
        (some [[("id", Val.int 1), ("name", Val.str "x")]]) (some []) = Except.ok r :=
  ⟨(diff_related_totality "id" ["id", "name"] (fun _ => "") [[("name", Val.str "x")]]
      (some [])).1 ⟨[("name", Val.str "x")], by simp, by decide⟩,
   (diff_related_totality "id" ["id", "name"] (fun _ => "")
      [[("id", Val.int 1), ("name", Val.str "x")]] (some [])).2
      (by intro item hit; simp at hit; subst hit; decide)⟩

theorem vinsert_fresh {α : Type} (l : List (Val × α)) (k : Val) (v : α)
    (h : ∀ x ∈ l, x.1 ≠ k) : vinsert l k v = l ++ [(k, v)] := by
  induction l with
  | nil => rfl
  | cons x rest ih =>
    have hx : x.1 ≠ k := h x (by simp)
    simp only [vinsert, if_neg hx, List.cons_append, List.cons.injEq, true_and]
    exact ih (fun y hy => h y (by simp [hy]))

theorem relatedMatch_isSome (pkName : String) (pks : List Val) (i : Dict)
    (h : relatedMatch pkName pks i = true) : (dget i pkName).isSome := by
  unfold relatedMatch at h
  cases hd : dget i pkName with
  | none => rw [hd] at h; exact absurd h (by simp)
  | some v => simp

/-- The `added` output of the first pass: exactly the unmatched rows of
`data_changed`, in order, projected to the declared fields. -/
theorem relatedPass1_added (pkName : String) (fo : List String) (showR : Dict → String)
    (pks : List Val) :
    ∀ (items : List Dict) (added : List Dict) (astr : List String)
      (changed : List (Val × Dict)),
      (relatedPass1 pkName fo showR pks items added astr changed).1
        = added ++ (items.filter (fun i => !relatedMatch pkName pks i)).map
            (fun i => filter_data i fo) := by
  intro items
  induction items with
  | nil => intro added astr changed; simp [relatedPass1]
  | cons item rest ih =>
    intro added astr changed
    by_cases hg : relatedMatch pkName pks item = true
    · cases hd : dget item pkName with
      | some v =>
        simp only [relatedPass1, hg, if_true, hd]
        rw [ih]
        simp [List.filter_cons, hg]
      | none =>
        have := relatedMatch_isSome pkName pks item hg
        rw [hd] at this
        exact absurd this (by simp)
    · simp only [relatedPass1, if_neg hg]
      rw [ih]
      simp [List.filter_cons, hg]

/-- The `changed` output of the first pass, when the matched identities are
pairwise distinct and fresh for the accumulator: the matched rows keyed by
their identity, appended in order. -/
theorem relatedPass1_changed (pkName : String) (fo : List String) (showR : Dict → String)
    (pks : List Val) :
    ∀ (items : List Dict) (added : List Dict) (astr : List String)
      (changed : List (Val × Dict)),
      ((items.filter (fun i => relatedMatch pkName pks i)).filterMap
        (fun i => dget i pkName)).Nodup →
      (∀ w ∈ (items.filter (fun i => relatedMatch pkName pks i)).filterMap
        (fun i => dget i pkName), ∀ x ∈ changed, x.1 ≠ w) →
      (relatedPass1 pkName fo showR pks items added astr changed).2.2
        = changed ++ items.filterMap (fun i =>
            if relatedMatch pkName pks i then
              (dget i pkName).map (fun v => (v, i))
            else none) := by
  intro items
  induction items with
  | nil => intro added astr changed _ _; simp [relatedPass1]
  | cons item rest ih =>
    intro added astr changed hnd hfresh
    by_cases hg : relatedMatch pkName pks item = true
    · cases hd : dget item pkName with
      | some v =>
        rw [List.filter_cons_of_pos hg] at hnd hfresh
        rw [show List.filterMap (fun i => dget i pkName)
              (item :: List.filter (fun i => relatedMatch pkName pks i) rest)
            = v :: List.filterMap (fun i => dget i pkName)
              (List.filter (fun i => relatedMatch pkName pks i) rest) from by
          simp [List.filterMap_cons, hd]] at hnd hfresh
        have hndv := List.nodup_cons.mp hnd
        have hvfresh : ∀ x ∈ changed, x.1 ≠ v := hfresh v (by simp)
        simp only [relatedPass1, hg, if_true, hd]
        rw [ih added astr (vinsert changed v item) hndv.2 ?hfresh]
        case hfresh =>
          intro w hw x hx
          rw [vinsert_fresh changed v item hvfresh] at hx
          rcases List.mem_append.mp hx with hx | hx
          · exact hfresh w (by simp [hw]) x hx
          · simp at hx
            subst hx
            intro hc
            have hc' : v = w := hc
            rw [hc'] at hndv
            exact hndv.1 hw
        rw [vinsert_fresh changed v item hvfresh]
        simp [List.filterMap_cons, hg, hd]
      | none =>
        have := relatedMatch_isSome pkName pks item hg
        rw [hd] at this
        exact absurd this (by simp)
    · rw [List.filter_cons_of_neg hg] at hnd hfresh
      simp only [relatedPass1, if_neg hg]
      rw [ih (added ++ [filter_data item fo]) (astr ++ [showR item]) changed hnd hfresh]
      have hgf : relatedMatch pkName pks item = false := by
        revert hg
        cases relatedMatch pkName pks item <;> simp
      simp [List.filterMap_cons, hgf]

/-- Looking up an identity in the `changed` dict built by the first pass finds
the first matched row of `data_changed` with that identity. -/
theorem vlookup_filterMap_find (pkName : String) (g : Dict → Bool)
    (hg : ∀ i, g i = true → (dget i pkName).isSome) :
    ∀ (dc : List Dict) (v : Val),
      vlookup (dc.filterMap (fun i =>
          if g i then (dget i pkName).map (fun w => (w, i)) else none)) v
        = dc.find? (fun j => g j && decide (dget j pkName = some v)) := by
  intro dc
  induction dc with
  | nil => intro v; rfl
  | cons i rest ih =>
    intro v
    by_cases hgi : g i = true
    · cases hd : dget i pkName with
      | none =>
        have := hg i hgi
        rw [hd] at this
        exact absurd this (by simp)
      | some w =>
        rw [List.filterMap_cons]
        simp only [hgi, if_true, hd, Option.map_some']
        rw [List.find?_cons]
        by_cases hw : w = v
        · subst hw
          simp only [vlookup, if_pos rfl]
          have hc : (g i && decide (dget i pkName = some w)) = true := by simp [hgi, hd]
          rw [hc]
          simp
        · simp only [vlookup, if_neg hw]
          have hc : (g i && decide (dget i pkName = some v)) = false := by
            simp [hgi, hd, hw]
          rw [hc]
          exact ih v
    · rw [List.filterMap_cons]
      have hgf : g i = false := by
        revert hgi
        cases g i <;> simp
      simp only [hgf, Bool.false_eq_true, if_false]
      rw [List.find?_cons]
      have hc : (g i && decide (dget i pkName = some v)) = false := by simp [hgf]
      rw [hc]
      exact ih v

theorem find?_congr {α : Type} (p q : α → Bool) (h : ∀ x, p x = q x) :
    ∀ (l : List α), l.find? p = l.find? q := by
  intro l
  induction l with
  | nil => rfl
  | cons x rest ih =>
    rw [List.find?_cons, List.find?_cons, h x, ih]

/-- When every revert row carries a truthy identity, the `existing` pk list is
just the list of revert identities. -/
theorem revertPks_eq (pkName : String) (dr : List Dict)
    (h : ∀ i ∈ dr, ∃ v, dget i pkName = some v ∧ v.truthy = true) :
    revertPks pkName (some dr) = dr.filterMap (fun i => dget i pkName) := by
  unfold revertPks
  refine List.filterMap_congr ?_
  intro i hi
  rcases h i hi with ⟨v, hv, ht⟩
  rw [hv]
  simp [ht]

/-- The second pass on a revert list with pairwise-distinct identities (all
present), starting from an accumulator whose modified-dict keys avoid those
identities: it succeeds, `modified` collects exactly the matched rows with a
non-empty diff (keyed by identity), and `deleted` collects exactly the
identities of the unmatched rows. -/
theorem relatedPass2_char (pkName : String) (fo : List String) (showR : Dict → String)
    (changed : List (Val × Dict)) :
    ∀ (rows : List Dict) (acc : Pass2Acc),
      (∀ i ∈ rows, (dget i pkName).isSome) →
      (rows.filterMap (fun i => dget i pkName)).Nodup →
      (∀ w ∈ rows.filterMap (fun i => dget i pkName), ∀ x ∈ acc.modified, x.1 ≠ w) →
      ∃ acc', relatedPass2 pkName fo showR changed rows acc = Except.ok acc' ∧
        acc'.modified = acc.modified ++ rows.filterMap (fun i =>
          (dget i pkName).bind (fun v =>
            match vlookup changed v with
            | some c =>
              if (changed_keys i c).length > 0 then some (v, changed_keys i c) else none
            | none => none)) ∧
        acc'.deleted = acc.deleted ++ rows.filterMap (fun i =>
          (dget i pkName).bind (fun v =>
            match vlookup changed v with
            | some _ => none
            | none => some v)) := by
  intro rows
  induction rows with
  | nil =>
    intro acc _ _ _
    exact ⟨acc, rfl, by simp, by simp⟩
  | cons item rest ih =>
    intro acc hsome hnd hfresh
    cases hd : dget item pkName with
    | none =>
      have := hsome item (by simp)
      rw [hd] at this
      exact absurd this (by simp)
    | some v =>
      rw [show List.filterMap (fun i => dget i pkName) (item :: rest)
          = v :: List.filterMap (fun i => dget i pkName) rest from by
        simp [List.filterMap_cons, hd]] at hnd hfresh
      have hndv := List.nodup_cons.mp hnd
      have hsome' : ∀ i ∈ rest, (dget i pkName).isSome :=
        fun i hi => hsome i (by simp [hi])
      simp only [relatedPass2, hd]
      cases hv : vlookup changed v with
      | some c =>
        by_cases hlen : (changed_keys item c).length > 0
        · simp only [if_pos hlen]
          have hvfresh : ∀ x ∈ acc.modified, x.1 ≠ v := hfresh v (by simp)
          have hins : vinsert acc.modified v (changed_keys item c)
              = acc.modified ++ [(v, changed_keys item c)] :=
            vinsert_fresh acc.modified v (changed_keys item c) hvfresh
          have hfresh' : ∀ w ∈ List.filterMap (fun i => dget i pkName) rest,
              ∀ x ∈ (acc.modified ++ [(v, changed_keys item c)]), x.1 ≠ w := by
            intro w hw x hx
            rcases List.mem_append.mp hx with hx | hx
            · exact hfresh w (by simp [hw]) x hx
            · simp at hx
              subst hx
              intro hc
              have hc' : v = w := hc
              rw [hc'] at hndv
              exact hndv.1 hw
          have hfresh2 : ∀ w ∈ List.filterMap (fun i => dget i pkName) rest,
              ∀ x ∈ vinsert acc.modified v (changed_keys item c), x.1 ≠ w := by
            rw [hins]
            exact hfresh'
          obtain ⟨acc', hacc, hmod, hdel⟩ := ih
            { acc with
              modified := vinsert acc.modified v (changed_keys item c)
              modified_str := acc.modified_str ++ [showR item]
              existing := vinsert acc.existing v (filter_data c fo) }
            hsome' hndv.2 hfresh2
          refine ⟨acc', hacc, ?_, ?_⟩
          · rw [hmod]
            simp only []
            rw [hins]
            simp [List.filterMap_cons, hd, hv, hlen, List.append_assoc]
          · rw [hdel]
            simp [List.filterMap_cons, hd, hv]
        · simp only [if_neg hlen]
          have hfresh' : ∀ w ∈ List.filterMap (fun i => dget i pkName) rest,
              ∀ x ∈ acc.modified, x.1 ≠ w :=
            fun w hw x hx => hfresh w (by simp [hw]) x hx
          obtain ⟨acc', hacc, hmod, hdel⟩ := ih
            { acc with existing := vinsert acc.existing v (filter_data item fo) }
            hsome' hndv.2 hfresh'
          refine ⟨acc', hacc, ?_, ?_⟩
          · rw [hmod]
            simp [List.filterMap_cons, hd, hv, hlen]
          · rw [hdel]
            simp [List.filterMap_cons, hd, hv]
      | none =>
        have hfresh' : ∀ w ∈ List.filterMap (fun i => dget i pkName) rest,
            ∀ x ∈ acc.modified, x.1 ≠ w :=
          fun w hw x hx => hfresh w (by simp [hw]) x hx
        obtain ⟨acc', hacc, hmod, hdel⟩ := ih
          { acc with
            deleted := acc.deleted ++ [v]
            deleted_str := acc.deleted_str ++ [showR item]
            existing := vinsert acc.existing v (filter_data item fo) }
          hsome' hndv.2 hfresh'
        refine ⟨acc', hacc, ?_, ?_⟩
        · rw [hmod]
          simp [List.filterMap_cons, hd, hv]
        · rw [hdel]
          simp [List.filterMap_cons, hd, hv, List.append_assoc]

/-- Modelled on the claim's declarative partition (refinement spec, to be
compared with `diff_related`): a `data_changed` row is matched when its
identity is present, truthy, and appears among the identities of
`data_revert`. -/
def relatedMatchSpec (pkName : String) (dr : List Dict) (item : Dict) : Bool :=
  match dget item pkName with
  | some v => v.truthy && decide (v ∈ dr.filterMap (fun i => dget i pkName))
  | none => false

/-- Refinement spec for `added`: every row of `data_changed` whose identity is
missing, falsy, or unmatched in `data_revert`, projected to the declared
fields, in order. -/
def addedPerSpec (pkName : String) (fo : List String) (dr dc : List Dict) : List Dict :=
  (dc.filter (fun item => !relatedMatchSpec pkName dr item)).map
    (fun item => filter_data item fo)

/-- The `data_changed` row matched by identity `v`, per the claim's reading. -/
def matchOf (pkName : String) (dr dc : List Dict) (v : Val) : Option Dict :=
  dc.find? (fun j => relatedMatchSpec pkName dr j && decide (dget j pkName = some v))

/-- Refinement spec for `modified`: every `data_revert` row matched by
identity with at least one differing common field contributes exactly its
changed-field set under its identity. -/
def modifiedPerSpec (pkName : String) (dr dc : List Dict) : List (Val × List String) :=
  dr.filterMap (fun i => (dget i pkName).bind (fun v =>
    match matchOf pkName dr dc v with
    | some j => if (changed_keys i j).length > 0 then some (v, changed_keys i j) else none
    | none => none))

/-- Refinement spec for `deleted`: the identity of every `data_revert` row
with no match in `data_changed`. -/
def deletedPerSpec (pkName : String) (dr dc : List Dict) : List Val :=
  dr.filterMap (fun i => (dget i pkName).bind (fun v =>
    match matchOf pkName dr dc v with
    | some _ => none
    | none => some v))

theorem relatedMatchSpec_eq (pkName : String) (dr : List Dict)
    (h : ∀ i ∈ dr, ∃ v, dget i pkName = some v ∧ v.truthy = true) (item : Dict) :
    relatedMatchSpec pkName dr item
      = relatedMatch pkName (revertPks pkName (some dr)) item := by
  unfold relatedMatchSpec relatedMatch
  rw [revertPks_eq pkName dr h]

/-- The revert rows of the C6 scenario: row 1 (later modified) and row 2
(later removed). -/
def relDr : List Dict :=
  [[("id", Val.int 1), ("name", Val.str "a")], [("id", Val.int 2), ("name", Val.str "b")]]

/-- The changed rows of the C6 scenario: row 1 with a changed name, and a new
row without an identity. -/
def relDc : List Dict :=
  [[("id", Val.int 1), ("name", Val.str "a2")], [("name", Val.str "new")]]

/-- Claim C6: `diff_related` partitions the child rows by primary-key
identity.  Under well-formed inputs (revert rows with present, truthy,
pairwise-distinct identities; matched changed-row identities distinct), the
`added` list is exactly the changed rows with missing, falsy or unmatched
identity; `modified` maps each identity matched in both with a non-empty
field diff to exactly its changed-field set; `deleted` is exactly the
identities of revert rows with no match.  In the one-new / one-modified /
one-removed scenario the three outputs are exactly the new row, the
changed-field set, and the missing identity. -/
theorem diff_related_partition :
    (∀ (pkName : String) (fo : List String) (showR : Dict → String) (dr dc : List Dict),
      (∀ i ∈ dr, ∃ v, dget i pkName = some v ∧ v.truthy = true) →
      (dr.filterMap (fun i => dget i pkName)).Nodup →
      ((dc.filter (fun j => relatedMatchSpec pkName dr j)).filterMap
        (fun j => dget j pkName)).Nodup →
      ∃ r, diff_related pkName fo showR (some dr) (some dc) = Except.ok r ∧
        r.added = addedPerSpec pkName fo dr dc ∧
        r.modified = modifiedPerSpec pkName dr dc ∧
        r.deleted = deletedPerSpec pkName dr dc) ∧
    (∃ r, diff_related "id" ["id", "name"] (fun _ => "") (some relDr) (some relDc)
        = Except.ok r ∧
      r.added = [[("name", Val.str "new")]] ∧
      r.modified = [(Val.int 1, ["name"])] ∧
      r.deleted = [Val.int 2]) := by
  constructor
  · intro pkName fo showR dr dc h1 h2 h3
    have hmeq : ∀ j, relatedMatchSpec pkName dr j
        = relatedMatch pkName (revertPks pkName (some dr)) j :=
      relatedMatchSpec_eq pkName dr h1
    have hfilter : dc.filter (fun j => relatedMatchSpec pkName dr j)
        = dc.filter (fun j => relatedMatch pkName (revertPks pkName (some dr)) j) :=
      List.filter_congr (fun j _ => hmeq j)
    rw [hfilter] at h3
    unfold diff_related
    simp only [Option.getD_some]
    rcases hp1 : relatedPass1 pkName fo showR (revertPks pkName (some dr)) dc [] [] []
      with ⟨added, added_str, changed⟩
    simp only []
    have hadded : added
        = (dc.filter (fun i => !relatedMatch pkName (revertPks pkName (some dr)) i)).map
            (fun i => filter_data i fo) := by
      have := relatedPass1_added pkName fo showR (revertPks pkName (some dr)) dc [] [] []
      rw [hp1] at this
      simpa using this
    have hchanged : changed = dc.filterMap (fun i =>
        if relatedMatch pkName (revertPks pkName (some dr)) i then
          (dget i pkName).map (fun v => (v, i))
        else none) := by
      have := relatedPass1_changed pkName fo showR (revertPks pkName (some dr)) dc [] []
        [] h3 (fun w _ x hx => absurd hx (by simp))
      rw [hp1] at this
      simpa using this
    have hsome : ∀ i ∈ dr, (dget i pkName).isSome := by
      intro i hi
      rcases h1 i hi with ⟨v, hv, _⟩
      rw [hv]
      rfl
    obtain ⟨acc', hacc, hmod, hdel⟩ := relatedPass2_char pkName fo showR changed dr
      ⟨[], [], [], [], []⟩ hsome h2 (fun w _ x hx => absurd hx (by simp))
    rw [hacc]
    have hvl : ∀ v, vlookup changed v = matchOf pkName dr dc v := by
      intro v
      rw [hchanged]
      rw [vlookup_filterMap_find pkName _
        (fun i hi => relatedMatch_isSome pkName (revertPks pkName (some dr)) i hi) dc v]
      exact (find?_congr _ _ (fun j => by rw [hmeq j]) dc).symm
    refine ⟨_, rfl, ?_, ?_, ?_⟩
    · rw [hadded]
      unfold addedPerSpec
      rw [show dc.filter (fun item => !relatedMatchSpec pkName dr item)
          = dc.filter (fun i => !relatedMatch pkName (revertPks pkName (some dr)) i) from
        List.filter_congr (fun j _ => by rw [hmeq j])]
    · rw [hmod]
      unfold modifiedPerSpec
      simp only [List.nil_append]
      refine List.filterMap_congr ?_
      intro i _
      simp only [hvl]
    · rw [hdel]
      unfold deletedPerSpec
      simp only [List.nil_append]
      refine List.filterMap_congr ?_
      intro i _
      simp only [hvl]
  · exact ⟨_, rfl, by decide, by decide, by decide⟩

/-- Witness for C6: the universal partition applied to the concrete scenario
rows, with the well-formedness hypotheses discharged there. -/
theorem diff_related_partition_witness :
    ∃ r, diff_related "id" ["id", "name"] (fun _ => "") (some relDr) (some relDc)
        = Except.ok r ∧
      r.added = addedPerSpec "id" ["id", "name"] relDr relDc ∧
      r.modified = modifiedPerSpec "id" relDr relDc ∧
      r.deleted = deletedPerSpec "id" relDr relDc := by
  refine diff_related_partition.1 "id" ["id", "name"] (fun _ => "") relDr relDc ?_
    (by decide) (by decide)
  intro i hi
  simp only [relDr, List.mem_cons, List.not_mem_nil, or_false] at hi
  rcases hi with hi | hi
  · subst hi
    exact ⟨Val.int 1, by decide, by decide⟩
  · subst hi
    exact ⟨Val.int 2, by decide, by decide⟩

end DCR
